import Mathlib

/-!
Verification development for the condish.ai extraction-normalization layer
and pipeline orchestrator (src/api/damage_analyzer.py, src/api/lease_agent.py,
src/api/floor_plan.py, src/api/server.py).

Python text is modelled as `List Char`.  The Python standard-library JSON
codec (`json.loads` / `json.dumps`), which is external to the repository, is
modelled concretely by `parseJson` / `printJson`: a compact-form JSON codec
over a `Json` value type (integer numbers; strings without escape sequences).
`json.loads` is strict (the whole text must parse); `json.dumps` with compact
separators prints exactly `printJson`.  Everything else is translated
directly from the repository sources.
-/

/-! ## Python string primitives -/

/-- Python `str.strip()` whitespace set (space, tab, newline, carriage
return, vertical tab, form feed). -/
def pyIsSpace (c : Char) : Bool :=
  c = ' ' || c = '\t' || c = '\n' || c = '\x0d' || c = '\x0b' || c = '\x0c'

/-- Python `str.strip()`: drop whitespace from both ends. -/
def pyStrip (l : List Char) : List Char :=
  ((l.dropWhile pyIsSpace).reverse.dropWhile pyIsSpace).reverse

/-- Python `str.lower()` (ASCII fragment, as used by the damage keyword
scan). -/
def pyLower (l : List Char) : List Char := l.map Char.toLower

/-- Python substring membership `needle in hay`. -/
def containsSub (needle hay : List Char) : Bool := decide (needle <:+: hay)

/-- The tail of the input just after the first occurrence of `sep`
(`none` when `sep` does not occur).  Used to model `str.split(sep)[1]`. -/
def afterFirstSep (sep : List Char) : List Char → Option (List Char)
  | [] => none
  | c :: cs =>
    if sep.isPrefixOf (c :: cs) then some ((c :: cs).drop sep.length)
    else afterFirstSep sep cs

/-- The prefix of the input up to (excluding) the next occurrence of `sep`,
or the whole input when `sep` does not occur.  Second half of modelling
`str.split(sep)[1]`. -/
def takeUntilSep (sep : List Char) : List Char → List Char
  | [] => []
  | c :: cs =>
    if sep.isPrefixOf (c :: cs) then [] else c :: takeUntilSep sep cs

/-- Python `text.split(sep)[1]`: the segment between the first and the
second occurrence of `sep`.  Call sites in the sources only evaluate it when
`text` starts with `sep`, so the occurrence always exists. -/
def pySplitSecond (sep l : List Char) : List Char :=
  match afterFirstSep sep l with
  | some r => takeUntilSep sep r
  | none => []

/-! ## The JSON value model -/

inductive Json where
  | null : Json
  | bool (b : Bool) : Json
  | num (n : Int) : Json
  | str (s : List Char) : Json
  | arr (elems : List Json) : Json
  | obj (members : List (List Char × Json)) : Json

/-- Decimal digit to character. -/
def digitChar : Nat → Char
  | 0 => '0' | 1 => '1' | 2 => '2' | 3 => '3' | 4 => '4'
  | 5 => '5' | 6 => '6' | 7 => '7' | 8 => '8' | _ => '9'

/-- Character to decimal digit value. -/
def charVal (c : Char) : Nat := c.toNat - 48

def isDigitChar (c : Char) : Bool := '0' ≤ c && c ≤ '9'

/-- Decimal digits of a positive natural number, most significant first
(fuel-based so that it evaluates by kernel reduction). -/
def natCharsAux : Nat → Nat → List Char
  | 0, _ => []
  | fuel + 1, n =>
    if n = 0 then [] else natCharsAux fuel (n / 10) ++ [digitChar (n % 10)]

/-- Decimal digits of a natural number, most significant first. -/
def natCharsPos (n : Nat) : List Char :=
  if n = 0 then ['0'] else natCharsAux (n + 1) n

/-- Decimal representation of an integer. -/
def numChars (n : Int) : List Char :=
  if n < 0 then '-' :: natCharsPos n.natAbs else natCharsPos n.natAbs

mutual

/-- Compact JSON printing (what `json.dumps(value, separators=(",", ":"))`
produces for values in the modelled fragment). -/
def printJson : Json → List Char
  | .null => ("null".toList)
  | .bool true => ("true".toList)
  | .bool false => ("false".toList)
  | .num n => numChars n
  | .str s => '\"' :: s ++ ['\"']
  | .arr [] => ['[', ']']
  | .arr (x :: xs) => '[' :: (printJson x ++ (printTail xs ++ [']']))
  | .obj [] => ['\x7b', '\x7d']
  | .obj (m :: ms) => '\x7b' :: (printMember m ++ (printMTail ms ++ ['\x7d']))

def printTail : List Json → List Char
  | [] => []
  | x :: xs => ',' :: (printJson x ++ printTail xs)

def printMember : List Char × Json → List Char
  | (k, v) => '\"' :: k ++ '\"' :: ':' :: printJson v

def printMTail : List (List Char × Json) → List Char
  | [] => []
  | m :: ms => ',' :: (printMember m ++ printMTail ms)

end

/-- Python `dict.__setitem__` on an insertion-ordered association list:
an existing key keeps its position and gets the new value, a new key is
appended at the end. -/
def pyDictAdd (acc : List (List Char × Json)) (kv : List Char × Json) :
    List (List Char × Json) :=
  if acc.any (fun p => p.1 = kv.1) then
    acc.map (fun p => if p.1 = kv.1 then (p.1, kv.2) else p)
  else acc ++ [kv]

/-- Building a Python dict from parsed members in order (later duplicate
keys overwrite earlier ones, keeping the first position), as `json.loads`
does. -/
def pyDict (ms : List (List Char × Json)) : List (List Char × Json) :=
  ms.foldl pyDictAdd []

/-- Python `dict.get(k)` (`None` ⇒ `none`). -/
def pyGet (d : List (List Char × Json)) (k : List Char) : Option Json :=
  (d.find? (fun p => p.1 = k)).map (fun p => p.2)

/-- `value.get(k)` on a JSON value known to be a dict at every call site. -/
def getOpt (v : Json) (k : List Char) : Option Json :=
  match v with
  | .obj ms => pyGet ms k
  | _ => none

/-- `value.get(k, default)`. -/
def jsonGetD (v : Json) (k : List Char) (dflt : Json) : Json :=
  (getOpt v k).getD dflt

/-! ### The JSON parser (model of `json.loads` on the fragment) -/

/-- String body up to the closing quote.  Escape sequences are outside the
modelled fragment (they make the parse fail, as they never occur in the
inputs the claims are settled on). -/
def parseStrBody : List Char → Option (List Char × List Char)
  | [] => none
  | c :: rest =>
    if c = '\"' then some ([], rest)
    else if c = '\\' then none
    else (parseStrBody rest).map (fun p => (c :: p.1, p.2))

/-- A non-empty run of decimal digits and its value. -/
def parseNatNum (l : List Char) : Option (Nat × List Char) :=
  let ds := l.takeWhile isDigitChar
  if ds = [] then none
  else some (ds.foldl (fun acc c => acc * 10 + charVal c) 0, l.dropWhile isDigitChar)

mutual

def parseVal : Nat → List Char → Option (Json × List Char)
  | 0, _ => none
  | _ + 1, [] => none
  | fuel + 1, c :: rest =>
    if c = '\"' then (parseStrBody rest).map (fun p => (.str p.1, p.2))
    else if c = '[' then
      if rest.head? = some ']' then some (.arr [], rest.tail)
      else
        (parseVal fuel rest).bind fun p =>
          (parseElemsTail fuel p.2).map fun q => (.arr (p.1 :: q.1), q.2)
    else if c = '\x7b' then
      if rest.head? = some '\x7d' then some (.obj [], rest.tail)
      else
        (parseMember fuel rest).bind fun p =>
          (parseMembersTail fuel p.2).map fun q => (.obj (pyDict (p.1 :: q.1)), q.2)
    else if c = '-' then (parseNatNum rest).map (fun p => (.num (-(p.1 : Int)), p.2))
    else if isDigitChar c then
      (parseNatNum (c :: rest)).map (fun p => (.num (p.1 : Int), p.2))
    else if ("null".toList).isPrefixOf (c :: rest) then some (.null, (c :: rest).drop 4)
    else if ("true".toList).isPrefixOf (c :: rest) then some (.bool true, (c :: rest).drop 4)
    else if ("false".toList).isPrefixOf (c :: rest) then some (.bool false, (c :: rest).drop 5)
    else none

def parseElemsTail : Nat → List Char → Option (List Json × List Char)
  | 0, _ => none
  | _ + 1, ']' :: r => some ([], r)
  | fuel + 1, ',' :: r =>
    (parseVal fuel r).bind fun (v, r') =>
      (parseElemsTail fuel r').map fun (vs, r'') => (v :: vs, r'')
  | _ + 1, _ => none

def parseMember : Nat → List Char → Option ((List Char × Json) × List Char)
  | 0, _ => none
  | fuel + 1, '\"' :: rest =>
    (parseStrBody rest).bind fun (k, r) =>
      match r with
      | ':' :: r' => (parseVal fuel r').map fun (v, r'') => ((k, v), r'')
      | _ => none
  | _ + 1, _ => none

def parseMembersTail : Nat → List Char → Option (List (List Char × Json) × List Char)
  | 0, _ => none
  | _ + 1, '\x7d' :: r => some ([], r)
  | fuel + 1, ',' :: r =>
    (parseMember fuel r).bind fun (m, r') =>
      (parseMembersTail fuel r').map fun (ms, r'') => (m :: ms, r'')
  | _ + 1, _ => none

end

/-- Model of `json.loads`: the whole text must be one JSON value. -/
def parseJson (l : List Char) : Option Json :=
  match parseVal (l.length + 1) l with
  | some (v, []) => some v
  | _ => none

/-! ## The markdown fence-stripping clean-up

Translation of the block that every extraction site repeats
(damage_analyzer.py lines 166-171 and analogues in lease_agent.py and
floor_plan.py):

    clean_text = raw_text.strip()
    if clean_text.startswith("```"):
        clean_text = clean_text.split("```")[1]
        if clean_text.startswith("json"):
            clean_text = clean_text[4:]
    clean_text = clean_text.strip()
-/

def fenceChars : List Char := ("```".toList)

def jsonTagChars : List Char := ("json".toList)

/-- `if clean_text.startswith("json"): clean_text = clean_text[4:]`. -/
def dropTag (s : List Char) : List Char :=
  if jsonTagChars.isPrefixOf s then s.drop 4 else s

/-- The fenced-block removal conditional. -/
def stripFence (t : List Char) : List Char :=
  if fenceChars.isPrefixOf t then dropTag (pySplitSecond fenceChars t) else t

def cleanText (raw : List Char) : List Char :=
  pyStrip (stripFence (pyStrip raw))

/-! ## damage_analyzer.py -/

/-- The keyword vocabulary of the heuristic fallback classifier
(damage_analyzer.py lines 178-181, identical at lines 268-271). -/
def damageVocab : List (List Char) :=
  [("damage".toList), ("crack".toList), ("hole".toList), ("dent".toList),
   ("scratch".toList), ("stain".toList), ("peel".toList), ("mold".toList),
   ("water".toList), ("broken".toList), ("chip".toList), ("wear".toList)]

/-- `any(word in raw_text.lower() for word in [...]) and "no damage" not in
raw_text.lower()`. -/
def hasDamageWords (raw : List Char) : Bool :=
  (damageVocab.any (fun w => containsSub w (pyLower raw))) &&
    !(containsSub ("no damage".toList) (pyLower raw))

/-- The fallback dict built when JSON parsing of the model reply fails
(damage_analyzer.py lines 183-188). -/
def heuristicResult (raw : List Char) : Json :=
  .obj
    [(("status".toList),
        .str (if hasDamageWords raw then ("damage_found".toList) else ("no_damage".toList))),
     (("damage_found".toList), .bool (hasDamageWords raw)),
     (("message".toList), .str raw),
     (("raw_analysis".toList), .str raw)]

/-- Outcome of a Python code path: a returned value, or an uncaught
exception propagating to the caller. -/
inductive PyResult where
  | ok (v : Json) : PyResult
  | raised : PyResult

/-- Reply post-processing of `analyze_damage` (damage_analyzer.py lines
163-188): fence-strip, `json.loads`, tag `raw_analysis` on success,
heuristic fallback on `JSONDecodeError`.  When the reply parses to a
non-dict JSON value, `result["raw_analysis"] = raw_text` raises `TypeError`,
which no handler catches.  `analyze_damage_standalone` (lines 256-278) has
the identical post-processing. -/
def analyze_damage_extract (raw : List Char) : PyResult :=
  match parseJson (cleanText raw) with
  | some (.obj ms) => .ok (.obj (pyDictAdd ms (("raw_analysis".toList), .str raw)))
  | some _ => .raised
  | none => .ok (heuristicResult raw)

/-- Reply post-processing and empty-damages short-circuit of
`generate_repair_quote` (damage_analyzer.py lines 299-384).  The model
reply is an input; the returned flag records whether the model was invoked.
Prompt construction (pure template filling over `damages`, `country`,
`currency`, `deposit_amount`) does not affect the result record and is not
modelled. -/
def generate_repair_quote (damages : List Json) (country currency : List Char)
    (deposit_amount : Option Int) (modelReply : List Char) : Bool × PyResult :=
  if damages.isEmpty then
    (false, .ok (.obj
      [(("status".toList), .str ("no_damages".toList)),
       (("message".toList), .str ("No damages to quote".toList)),
       (("total".toList), .num 0),
       (("currency".toList), .str currency)]))
  else
    (true,
      match parseJson (cleanText modelReply) with
      | some (.obj ms) =>
          .ok (.obj (pyDictAdd ms (("status".toList), .str ("quote_generated".toList))))
      | some _ => .raised
      | none =>
          .ok (.obj
            [(("status".toList), .str ("quote_generated".toList)),
             (("raw_quote".toList), .str modelReply),
             (("message".toList), .str ("Quote generated (see raw_quote)".toList))]))

/-! ## lease_agent.py -/

/-- Reply post-processing of `extract_lease_info` (lease_agent.py lines
92-117).  A parse failure yields the `partial` record; a reply parsing to a
non-dict value makes `result["status"] = "success"` raise `TypeError`,
which the surrounding `except Exception` turns into the `error` record
(its message carries `str(e)`, elided here). -/
def extract_lease_info_result (raw : List Char) : Json :=
  match parseJson (cleanText raw) with
  | some (.obj ms) => .obj (pyDictAdd ms (("status".toList), .str ("success".toList)))
  | some _ =>
      .obj [(("status".toList), .str ("error".toList)),
            (("message".toList), .str ("Document analysis failed".toList))]
  | none =>
      .obj [(("status".toList), .str ("partial".toList)),
            (("raw_extraction".toList), .str raw),
            (("message".toList),
              .str ("Could not parse structured data, raw extraction provided".toList))]

/-- `process_lease_document` (lease_agent.py lines 206-232), as a function
of the two awaited sub-results.  The `.get` with the empty-dict default on
`security_deposit` substitutes that default only when the key is ABSENT;
when the key is
present with a non-dict value (in particular JSON `null`, which the
extraction prompt tells the model to produce for missing fields), the
chained `.get("amount")` is an attribute lookup on a non-dict and raises an
uncaught `AttributeError`, so the function raises instead of returning a
record.  A non-dict sub-result likewise raises at its `.get`, though both
extractors only ever return dicts. -/
def process_lease_document (lease_info floor_plan_result : Json) : PyResult :=
  match lease_info, floor_plan_result with
  | .obj lms, .obj fms =>
      match (pyGet lms ("security_deposit".toList)).getD (.obj []) with
      | .obj sms =>
          .ok (.obj
            [(("status".toList), .str ("success".toList)),
             (("lease_info".toList), .obj lms),
             (("floor_plan".toList), .obj fms),
             (("ready_for_inspection".toList),
                (pyGet fms ("floor_plan_found".toList)).getD (.bool false)),
             (("deposit_amount".toList),
                (pyGet sms ("amount".toList)).getD .null),
             (("deposit_currency".toList),
                (pyGet sms ("currency".toList)).getD (.str ("USD".toList)))])
      | _ => .raised
  | _, _ => .raised

/-- Reply post-processing of `calculate_deposit_deductions` (lease_agent.py
lines 253-327).  The returned flag records that the model is invoked on
every call — there is no empty-damages short-circuit.  A parse failure
yields the `error` record carrying the raw reply; a non-dict parse makes
`result["status"]` raise `TypeError`, caught by the outer
`except Exception` (message carries `str(e)`, elided). -/
def calculate_deposit_deductions (damages : List Json) (deposit_amount : Int)
    (currency : List Char) (repair_quote : Option Json)
    (modelReply : List Char) : Bool × Json :=
  (true,
    match parseJson (cleanText modelReply) with
    | some (.obj ms) => .obj (pyDictAdd ms (("status".toList), .str ("success".toList)))
    | some _ =>
        .obj [(("status".toList), .str ("error".toList)),
              (("message".toList), .str ("Deduction calculation failed".toList))]
    | none =>
        .obj [(("status".toList), .str ("error".toList)),
              (("message".toList), .str ("Could not calculate deductions".toList)),
              (("raw_response".toList), .str modelReply)])

/-! ## floor_plan.py -/

/-- Reply post-processing of `parse_floor_plan` (floor_plan.py lines
352-368).  On `JSONDecodeError` the function still reports
`status = "success"`, with the raw text and an empty room list; a non-dict
parse raises `TypeError`, caught by the outer handler as the `error`
record with `rooms = []`. -/
def parse_floor_plan_extract (raw : List Char) : Json :=
  match parseJson (cleanText raw) with
  | some (.obj ms) => .obj (pyDictAdd ms (("status".toList), .str ("success".toList)))
  | some _ =>
      .obj [(("status".toList), .str ("error".toList)),
            (("message".toList), .str ("TypeError".toList)),
            (("rooms".toList), .arr [])]
  | none =>
      .obj [(("status".toList), .str ("success".toList)),
            (("raw_analysis".toList), .str raw),
            (("rooms".toList), .arr [])]

/-! ### The streaming image-generation loop (floor_plan.py lines 189-215
and 275-300, identical logic) -/

/-- One stream part: optional inline binary data with optional media type,
and optional text.  A `none` chunk models `chunk.candidates` /
`.content` / `.parts` being absent or empty. -/
structure StreamPart where
  inline_data : Option (List Nat × Option (List Char))
  text : Option (List Char)

/-- `x or default` on an optional string (Python falsiness: `None` and the
empty string both fall through). -/
def pyOrStr (m : Option (List Char)) (dflt : List Char) : List Char :=
  match m with
  | some s => if s = [] then dflt else s
  | none => dflt

/-- Loop state: `generated_image` (raw bytes; the source stores
`base64.b64encode(data)`, an injective stdlib encoding that does not affect
which fragment is retained), `result_mime_type`, `text_response`. -/
structure StreamState where
  generated_image : Option (List Nat)
  result_mime_type : List Char
  text_response : List Char
deriving DecidableEq

/-- One iteration of the chunk loop. -/
def consumeChunk (st : StreamState) (ch : Option StreamPart) : StreamState :=
  match ch with
  | none => st
  | some part =>
    match part.inline_data with
    | some (data, mt) =>
      if data ≠ [] then
        { st with generated_image := some data,
                  result_mime_type := pyOrStr mt ("image/png".toList) }
      else match part.text with
        | some t => if t ≠ [] then { st with text_response := st.text_response ++ t } else st
        | none => st
    | none =>
      match part.text with
      | some t => if t ≠ [] then { st with text_response := st.text_response ++ t } else st
      | none => st

/-- Result record of the streaming stage. -/
inductive StreamResult where
  | success (image_data : List Nat) (mime_type : List Char) (description : List Char)
  | error (message : List Char) (text_response : List Char)
deriving DecidableEq

def initialStreamState : StreamState :=
  { generated_image := none,
    result_mime_type := ("image/png".toList),
    text_response := [] }

/-- The result construction after the loop (floor_plan.py lines 292-300). -/
def streamFinish (st : StreamState) : StreamResult :=
  match st.generated_image with
  | some data =>
      .success data st.result_mime_type
        (pyOrStr (some st.text_response) ("3D visualization generated".toList))
  | none => .error ("No image generated".toList) st.text_response

/-- The whole streaming stage of `generate_3d_floor_plan_image` on a finite
chunk sequence (floor_plan.py lines 275-300; the PDF branch at lines
189-215 is the same loop and result shape). -/
def generate_image_stream_result (chunks : List (Option StreamPart)) : StreamResult :=
  streamFinish (chunks.foldl consumeChunk initialStreamState)

/-! ## server.py -/

/-- Python truthiness of an optional JSON value (`dict.get` result). -/
def pyTruthy : Option Json → Bool
  | none => false
  | some .null => false
  | some (.bool b) => b
  | some (.num n) => n ≠ 0
  | some (.str s) => !s.isEmpty
  | some (.arr xs) => !xs.isEmpty
  | some (.obj ms) => !ms.isEmpty

/-- `generate_3d_from_document_endpoint` (server.py lines 211-257) as a
function of the awaited stage results: the floor-plan check, the parsed
floor-plan data, the layout, the checklist and the image stage result.
When the check does not report a floor plan, the endpoint returns the
`no_floor_plan` record and none of the later stages appear in it; otherwise
it returns `status = "success"` unconditionally, embedding each stage's own
result verbatim. -/
def generate_3d_from_document_endpoint (floor_plan_check floor_plan_data
    layout_3d checklist image_result : Json) (project_id : List Char) : Json :=
  if !(pyTruthy (getOpt floor_plan_check ("floor_plan_found".toList))) then
    .obj
      [(("status".toList), .str ("no_floor_plan".toList)),
       (("message".toList), .str ("No floor plan found in the lease document".toList)),
       (("floor_plan_info".toList),
          (getOpt floor_plan_check ("floor_plan_info".toList)).getD .null)]
  else
    .obj
      [(("status".toList), .str ("success".toList)),
       (("project_id".toList), .str project_id),
       (("floor_plan".toList), floor_plan_data),
       (("layout_3d".toList), layout_3d),
       (("checklist".toList), checklist),
       (("image_3d".toList), image_result),
       (("floor_plan_info".toList),
          (getOpt floor_plan_check ("floor_plan_info".toList)).getD .null)]

/-! ### The in-memory project store (server.py lines 113-116, 136-144,
420-425, 431-448) -/

/-- One entry of `projects_db`.  The Python value is a dict with this fixed
key set; an absent key and a key stored as `None` are conflated to `none`
(no claim distinguishes them through `dict.get`). -/
structure ProjectEntry where
  lease_info : Option Json
  deposit_amount : Option Json
  deposit_currency : Option Json
  document_bytes : Option (List Nat)
  mime_type : Option (List Char)
  deposit_deductions : Option Json

/-- `projects_db`, an insertion-ordered dict keyed by project id. -/
def ProjectsDb : Type := List (List Char × ProjectEntry)

def pyLookup (db : List (List Char × ProjectEntry)) (k : List Char) :
    Option ProjectEntry :=
  (db.find? (fun p => p.1 = k)).map (fun p => p.2)

/-- `projects_db[k] = v`. -/
def pySetEntry (db : List (List Char × ProjectEntry)) (k : List Char)
    (v : ProjectEntry) : List (List Char × ProjectEntry) :=
  if db.any (fun p => p.1 = k) then
    db.map (fun p => if p.1 = k then (p.1, v) else p)
  else db ++ [(k, v)]

/-- The store write of `process_lease_endpoint` (server.py lines 136-144):
`projects_db[project_id] = {...}` builds a fresh dict (without a
`deposit_deductions` key), replacing whatever was stored before. -/
def process_lease_write (db : List (List Char × ProjectEntry))
    (project_id : List Char) (result : Json) (document_bytes : List Nat)
    (mime_type : List Char) : List (List Char × ProjectEntry) :=
  pySetEntry db project_id
    { lease_info := getOpt result ("lease_info".toList),
      deposit_amount := getOpt result ("deposit_amount".toList),
      deposit_currency := getOpt result ("deposit_currency".toList),
      document_bytes := some document_bytes,
      mime_type := some mime_type,
      deposit_deductions := none }

/-- The store write of `calculate_deductions_endpoint` (server.py lines
420-425): only when the project exists, assign its `deposit_deductions`
key. -/
def calculate_deductions_write (db : List (List Char × ProjectEntry))
    (project_id : List Char) (result : Json) :
    List (List Char × ProjectEntry) :=
  if (pyLookup db project_id).isSome then
    db.map (fun p =>
      if p.1 = project_id then (p.1, { p.2 with deposit_deductions := some result })
      else p)
  else db

/-- The `deposit_deductions` field served by `get_project` (server.py line
447). -/
def get_project_deductions (db : List (List Char × ProjectEntry))
    (project_id : List Char) : Option Json :=
  (pyLookup db project_id).bind (fun e => e.deposit_deductions)

/-! ## create_inspection_checklist (floor_plan.py lines 402-446) -/

/-- A parsed room, with the `dict.get` defaults of the source already
applied (`id`/`name` default `""`, `type` default `"other"`,
`inspection_priority` default `"medium"`, `inspection_tips` default `[]`). -/
structure Room where
  id : List Char
  name : List Char
  type_ : List Char
  inspection_priority : List Char
  inspection_tips : List (List Char)
deriving DecidableEq

/-- Parsed floor-plan data as used by the checklist builder:
`floor_plan_data.get("rooms", [])` and
`floor_plan_data.get("inspection_route", [])`. -/
structure FloorPlanData where
  rooms : List Room
  inspection_route : List (List Char)

/-- `route_order = {room_id: i for i, room_id in enumerate(inspection_route)}`
then `.get(id, 999)`: the last enumeration index of `id` in the route, or
the sentinel 999. -/
def routeRank (inspection_route : List (List Char)) (id : List Char) : Nat :=
  (inspection_route.enum.foldl
    (fun acc p => if p.2 = id then some p.1 else acc) none).getD 999

def roomRank (inspection_route : List (List Char)) (r : Room) : Nat :=
  routeRank inspection_route r.id

/-- Stable insertion into a list sorted by `key`: the new element (earlier
in the original list) goes before every element of equal key. -/
def insertRanked {α : Type} (key : α → Nat) (x : α) : List α → List α
  | [] => [x]
  | y :: ys => if key y < key x then y :: insertRanked key x ys else x :: y :: ys

/-- Model of Python `sorted(l, key=key)`: the stable sort by `key`
(Python's sort is stable; this insertion sort produces the same list —
sorted by `key`, equal keys in original order). -/
def sortStable {α : Type} (key : α → Nat) : List α → List α
  | [] => []
  | x :: xs => insertRanked key x (sortStable key xs)

def baseItems : List (List Char × Bool) :=
  [(("Walls".toList), false), (("Ceiling".toList), false), (("Floor".toList), false)]

def typeItems (t : List Char) : List (List Char × Bool) :=
  if t = ("bathroom".toList) then
    [(("Toilet".toList), false), (("Sink".toList), false), (("Shower".toList), false)]
  else if t = ("kitchen".toList) then
    [(("Cabinets".toList), false), (("Countertops".toList), false),
     (("Appliances".toList), false)]
  else if t = ("bedroom".toList) then
    [(("Windows".toList), false), (("Closet".toList), false)]
  else if t = ("living".toList) then
    [(("Windows".toList), false), (("Outlets".toList), false)]
  else []

structure ChecklistEntry where
  room_id : List Char
  room_name : List Char
  room_type : List Char
  status : List Char
  priority : List Char
  inspection_items : List (List Char × Bool)
  tips : List (List Char)
  damages_found : List Json

def checklistEntryOf (r : Room) : ChecklistEntry :=
  { room_id := r.id,
    room_name := r.name,
    room_type := r.type_,
    status := ("pending".toList),
    priority := r.inspection_priority,
    inspection_items := baseItems ++ typeItems r.type_,
    tips := r.inspection_tips,
    damages_found := [] }

structure ChecklistNavigation where
  current_room : Option (List Char)
  next_room : Option (List Char)
  completed_rooms : Nat
  total_rooms : Nat
deriving DecidableEq

structure ChecklistResult where
  status : List Char
  total_rooms : Nat
  checklist : List ChecklistEntry
  navigation : ChecklistNavigation

/-- `create_inspection_checklist` (floor_plan.py lines 402-446). -/
def create_inspection_checklist (fp : FloorPlanData) : ChecklistResult :=
  let checklist :=
    (sortStable (roomRank fp.inspection_route) fp.rooms).map checklistEntryOf
  { status := ("success".toList),
    total_rooms := fp.rooms.length,
    checklist := checklist,
    navigation :=
      { current_room := none,
        next_room := (checklist.head?).map (fun e => e.room_id),
        completed_rooms := 0,
        total_rooms := checklist.length } }

/-! ## Dictionary lemmas -/

theorem pyGet_cons (x : List Char × Json) (l : List (List Char × Json)) (k : List Char) :
    pyGet (x :: l) k = if x.1 = k then some x.2 else pyGet l k := by
  unfold pyGet
  by_cases h : x.1 = k
  · rw [List.find?_cons_of_pos _ (by simpa using h), if_pos h]
    rfl
  · rw [List.find?_cons_of_neg _ (by simpa using h), if_neg h]

theorem pyGet_setAll (d : List (List Char × Json)) (k0 k : List Char) (v : Json) :
    pyGet (d.map (fun p => if p.1 = k0 then (p.1, v) else p)) k =
      if k = k0 then (pyGet d k0).map (fun _ => v) else pyGet d k := by
  induction d with
  | nil => by_cases hk : k = k0 <;> simp [pyGet, hk]
  | cons p d ih =>
    have hfst : (if p.1 = k0 then (p.1, v) else p).1 = p.1 := by
      by_cases hp : p.1 = k0 <;> simp [hp]
    rw [List.map_cons, pyGet_cons, hfst, pyGet_cons, pyGet_cons]
    by_cases hpk : p.1 = k
    · rw [if_pos hpk, if_pos hpk]
      by_cases hk : k = k0
      · rw [if_pos hk, if_pos (hk ▸ hpk)]
        simp [hk ▸ hpk]
      · rw [if_neg hk, if_neg (fun h => hk (by rw [← hpk, h]))]
    · rw [if_neg hpk, if_neg hpk, ih]
      by_cases hk : k = k0
      · rw [if_pos hk, if_pos hk, if_neg (fun h => hpk (by rw [h, hk]))]
      · rw [if_neg hk, if_neg hk]

theorem pyGet_append_single (d : List (List Char × Json)) (k0 k : List Char) (v : Json)
    (h : pyGet d k0 = none) :
    pyGet (d ++ [(k0, v)]) k = if k = k0 then some v else pyGet d k := by
  induction d with
  | nil =>
    by_cases hk : k = k0
    · simp [pyGet, hk]
    · rw [List.nil_append, pyGet_cons, if_neg (fun h' => hk h'.symm), if_neg hk]
  | cons p d ih =>
    rw [List.cons_append, pyGet_cons, pyGet_cons]
    rw [pyGet_cons] at h
    by_cases hpk : p.1 = k
    · rw [if_pos hpk, if_pos hpk]
      by_cases hk : k = k0
      · rw [if_pos (hk ▸ hpk)] at h
        exact absurd h (by simp)
      · rw [if_neg hk]
    · rw [if_neg hpk, if_neg hpk]
      by_cases hp0 : p.1 = k0
      · rw [if_pos hp0] at h
        exact absurd h (by simp)
      · rw [if_neg hp0] at h
        exact ih h

theorem any_key_iff_get (d : List (List Char × Json)) (k : List Char) :
    d.any (fun p => p.1 = k) = true ↔ (pyGet d k).isSome := by
  induction d with
  | nil => simp [pyGet]
  | cons p d ih =>
    rw [List.any_cons, pyGet_cons]
    by_cases hp : p.1 = k
    · simp [hp]
    · simp only [if_neg hp]
      rw [Bool.or_eq_true]
      constructor
      · intro h
        rcases h with h | h
        · exact absurd (by simpa using h) hp
        · exact ih.mp h
      · intro h
        exact Or.inr (ih.mpr h)

/-- Reading back through a Python dict assignment: the assigned key reads
the new value, every other key is untouched. -/
theorem pyGet_pyDictAdd (ms : List (List Char × Json)) (k0 k : List Char) (v : Json) :
    pyGet (pyDictAdd ms (k0, v)) k = if k = k0 then some v else pyGet ms k := by
  unfold pyDictAdd
  by_cases h : ms.any (fun p => p.1 = k0) = true
  · rw [if_pos h, pyGet_setAll]
    rcases hs : pyGet ms k0 with _ | w
    · rw [any_key_iff_get, hs] at h
      simp at h
    · simp
  · rw [if_neg h]
    refine pyGet_append_single ms k0 k v ?_
    rw [any_key_iff_get] at h
    rcases hs : pyGet ms k0 with _ | w
    · rfl
    · exact absurd (by rw [hs]; rfl) h

theorem foldl_pyDictAdd_nodup :
    ∀ (ms acc : List (List Char × Json)),
      ((acc ++ ms).map Prod.fst).Nodup → ms.foldl pyDictAdd acc = acc ++ ms := by
  intro ms
  induction ms with
  | nil => intro acc _; simp
  | cons m ms ih =>
    intro acc h
    have hnotin : m.1 ∉ acc.map Prod.fst := by
      intro hmem
      have := (List.nodup_append.mp (by simpa using h)).2.2
      exact this hmem (List.mem_cons_self _ _)
    have hany : ¬ (acc.any (fun p => p.1 = m.1) = true) := by
      intro hc
      rw [List.any_eq_true] at hc
      obtain ⟨p, hp, hpe⟩ := hc
      exact hnotin (List.mem_map.mpr ⟨p, hp, by simpa using hpe⟩)
    have hstep : pyDictAdd acc m = acc ++ [m] := by
      unfold pyDictAdd
      rw [if_neg hany]
    rw [List.foldl_cons, hstep, ih (acc ++ [m]) (by simpa using h)]
    simp

/-- `json.loads` object assembly keeps a duplicate-free member list as is. -/
theorem pyDict_nodup (ms : List (List Char × Json))
    (h : (ms.map Prod.fst).Nodup) : pyDict ms = ms := by
  simpa using foldl_pyDictAdd_nodup ms [] (by simpa using h)

/-! ## Stable sort lemmas -/

theorem insertRanked_perm {α : Type} (key : α → Nat) (x : α) (l : List α) :
    (insertRanked key x l).Perm (x :: l) := by
  induction l with
  | nil => exact List.Perm.refl _
  | cons y ys ih =>
    unfold insertRanked
    by_cases h : key y < key x
    · rw [if_pos h]
      exact (ih.cons y).trans (List.Perm.swap x y ys)
    · rw [if_neg h]

theorem sortStable_perm {α : Type} (key : α → Nat) (l : List α) :
    (sortStable key l).Perm l := by
  induction l with
  | nil => exact List.Perm.refl _
  | cons x xs ih => exact (insertRanked_perm key x (sortStable key xs)).trans (ih.cons x)

theorem mem_insertRanked {α : Type} (key : α → Nat) (x a : α) (l : List α) :
    a ∈ insertRanked key x l ↔ a = x ∨ a ∈ l := by
  rw [(insertRanked_perm key x l).mem_iff, List.mem_cons]

theorem pairwise_insertRanked {α : Type} (key : α → Nat) (x : α) (l : List α)
    (h : l.Pairwise (fun a b => key a ≤ key b)) :
    (insertRanked key x l).Pairwise (fun a b => key a ≤ key b) := by
  induction l with
  | nil => simp [insertRanked]
  | cons y ys ih =>
    rw [List.pairwise_cons] at h
    obtain ⟨h1, h2⟩ := h
    unfold insertRanked
    by_cases hlt : key y < key x
    · rw [if_pos hlt, List.pairwise_cons]
      refine ⟨?_, ih h2⟩
      intro b hb
      rcases (mem_insertRanked key x b ys).mp hb with rfl | hb
      · exact Nat.le_of_lt hlt
      · exact h1 b hb
    · rw [if_neg hlt, List.pairwise_cons]
      refine ⟨?_, List.pairwise_cons.mpr ⟨h1, h2⟩⟩
      intro b hb
      rcases List.mem_cons.mp hb with rfl | hb
      · exact Nat.le_of_not_lt hlt
      · exact Nat.le_trans (Nat.le_of_not_lt hlt) (h1 b hb)

theorem sortStable_pairwise {α : Type} (key : α → Nat) (l : List α) :
    (sortStable key l).Pairwise (fun a b => key a ≤ key b) := by
  induction l with
  | nil => simp [sortStable]
  | cons x xs ih => exact pairwise_insertRanked key x (sortStable key xs) ih

theorem filter_insertRanked {α : Type} (key : α → Nat) (x : α) (l : List α) (n : Nat) :
    (insertRanked key x l).filter (fun a => key a == n) =
      if key x = n then x :: l.filter (fun a => key a == n)
      else l.filter (fun a => key a == n) := by
  induction l with
  | nil =>
    unfold insertRanked
    by_cases hx : key x = n
    · rw [if_pos hx]
      simp [hx]
    · rw [if_neg hx]
      simp [hx]
  | cons y ys ih =>
    unfold insertRanked
    by_cases hlt : key y < key x
    · rw [if_pos hlt]
      by_cases hy : key y = n
      · have hx : ¬ key x = n := by
          intro hx
          rw [hx] at hlt
          rw [hy] at hlt
          exact Nat.lt_irrefl n hlt
        rw [if_neg hx]
        rw [List.filter_cons, List.filter_cons]
        simp only [hy, beq_self_eq_true, if_pos]
        rw [ih, if_neg hx]
      · rw [List.filter_cons, List.filter_cons]
        have : (key y == n) = false := by simp [hy]
        simp only [this, Bool.false_eq_true, if_neg, ite_false]
        rw [ih]
    · rw [if_neg hlt]
      rw [List.filter_cons]
      by_cases hx : key x = n
      · rw [if_pos hx]
        simp [hx]
      · rw [if_neg hx]
        simp [hx]

theorem sortStable_filter {α : Type} (key : α → Nat) (l : List α) (n : Nat) :
    (sortStable key l).filter (fun a => key a == n) =
      l.filter (fun a => key a == n) := by
  induction l with
  | nil => rfl
  | cons x xs ih =>
    show (insertRanked key x (sortStable key xs)).filter _ = _
    rw [filter_insertRanked, List.filter_cons]
    by_cases hx : key x = n
    · rw [if_pos hx, ih]
      simp [hx]
    · rw [if_neg hx, ih]
      simp [hx]

/-! ## Streaming loop lemmas -/

/-- The non-empty binary payload a chunk carries, if any (the condition
`part.inline_data and part.inline_data.data` of the source loop). -/
def binaryOf (ch : Option StreamPart) : Option (List Nat) :=
  match ch with
  | none => none
  | some p =>
    match p.inline_data with
    | some d => if d.1 ≠ [] then some d.1 else none
    | none => none

/-- The text a chunk contributes to the accumulating buffer (the `elif`
branch of the source loop: nothing when the binary branch was taken). -/
def textOf (ch : Option StreamPart) : List Char :=
  match ch with
  | none => []
  | some p =>
    match p.inline_data with
    | some d => if d.1 ≠ [] then [] else p.text.getD []
    | none => p.text.getD []

theorem getLast?_cons {β : Type} (x : β) (xs : List β) :
    (x :: xs).getLast? =
      match xs.getLast? with
      | some y => some y
      | none => some x := by
  induction xs generalizing x with
  | nil => rfl
  | cons y ys ih =>
    rw [List.getLast?_cons_cons]
    rw [ih y]
    rcases h : (ys.getLast?) with _ | z
    · have : ys = [] := List.getLast?_eq_none_iff.mp h
      subst this
      rfl
    · rfl

theorem consumeChunk_spec (st : StreamState) (ch : Option StreamPart) :
    (consumeChunk st ch).text_response = st.text_response ++ textOf ch ∧
    (consumeChunk st ch).generated_image =
      (match binaryOf ch with
       | some d => some d
       | none => st.generated_image) := by
  rcases ch with _ | p
  · simp [consumeChunk, textOf, binaryOf]
  · rcases hd : p.inline_data with _ | dpair
    · rcases ht : p.text with _ | t
      · simp [consumeChunk, textOf, binaryOf, hd, ht]
      · by_cases hte : t = []
        · simp [consumeChunk, textOf, binaryOf, hd, ht, hte]
        · simp [consumeChunk, textOf, binaryOf, hd, ht, hte]
    · by_cases hde : dpair.1 = []
      · rcases ht : p.text with _ | t
        · simp [consumeChunk, textOf, binaryOf, hd, ht, hde]
        · by_cases hte : t = []
          · simp [consumeChunk, textOf, binaryOf, hd, ht, hde, hte]
          · simp [consumeChunk, textOf, binaryOf, hd, ht, hde, hte]
      · simp [consumeChunk, textOf, binaryOf, hd, hde]

theorem stream_fold_spec (chunks : List (Option StreamPart)) : ∀ st : StreamState,
    ((chunks.foldl consumeChunk st).text_response =
      st.text_response ++ (chunks.map textOf).flatten) ∧
    ((chunks.foldl consumeChunk st).generated_image =
      match (chunks.filterMap binaryOf).getLast? with
      | some d => some d
      | none => st.generated_image) := by
  induction chunks with
  | nil => intro st; simp
  | cons c cs ih =>
    intro st
    rw [List.foldl_cons, List.map_cons, List.filterMap_cons]
    obtain ⟨htext, himg⟩ := consumeChunk_spec st c
    obtain ⟨ihtext, ihimg⟩ := ih (consumeChunk st c)
    constructor
    · rw [ihtext, htext, List.append_assoc, List.flatten_cons]
    · rw [ihimg, himg]
      rcases hb : binaryOf c with _ | d
      · rfl
      · rw [getLast?_cons d (cs.filterMap binaryOf)]
        rcases h : (cs.filterMap binaryOf).getLast? with _ | e
        · rfl
        · rfl

/-! ## Well-formed JSON values (the fragment on which the modelled codec
agrees with the Python one: strings without quotes, backslashes or control
characters; duplicate-free object keys) -/

def wfChar (c : Char) : Bool := 32 ≤ c.toNat && !(c = '\"') && !(c = '\\')

def wfStr (s : List Char) : Bool := s.all wfChar

mutual

def wfJson : Json → Bool
  | .null => true
  | .bool _ => true
  | .num _ => true
  | .str s => wfStr s
  | .arr xs => wfElems xs
  | .obj ms => decide ((ms.map Prod.fst).Nodup) && wfMembers ms

def wfElems : List Json → Bool
  | [] => true
  | x :: xs => wfJson x && wfElems xs

def wfMembers : List (List Char × Json) → Bool
  | [] => true
  | m :: ms => wfStr m.1 && wfJson m.2 && wfMembers ms

end

/-! ## Parser/printer inversion: auxiliary lemmas -/

theorem charVal_digitChar (d : Nat) (h : d < 10) : charVal (digitChar d) = d := by
  interval_cases d <;> decide

theorem isDigitChar_digitChar (d : Nat) (h : d < 10) :
    isDigitChar (digitChar d) = true := by
  interval_cases d <;> decide

theorem natCharsAux_eq (fuel : Nat) : ∀ n : Nat, n ≤ fuel →
    natCharsAux fuel n = ((Nat.digits 10 n).map digitChar).reverse := by
  induction fuel with
  | zero =>
    intro n hn
    have : n = 0 := Nat.le_zero.mp hn
    subst this
    simp [natCharsAux]
  | succ fuel ih =>
    intro n hn
    by_cases hz : n = 0
    · subst hz
      simp [natCharsAux]
    · have hpos : 0 < n := Nat.pos_of_ne_zero hz
      have hdiv : n / 10 ≤ fuel := by
        have := Nat.div_lt_self hpos (by norm_num : 1 < 10)
        omega
      rw [show natCharsAux (fuel + 1) n
            = natCharsAux fuel (n / 10) ++ [digitChar (n % 10)] by
          simp [natCharsAux, hz]]
      rw [ih (n / 10) hdiv, Nat.digits_def' (by norm_num : (1:Nat) < 10) hpos]
      simp

theorem natCharsPos_ne_nil (n : Nat) : natCharsPos n ≠ [] := by
  unfold natCharsPos
  by_cases hz : n = 0
  · simp [hz]
  · rw [if_neg hz, natCharsAux_eq (n + 1) n (Nat.le_succ n)]
    simp only [ne_eq, List.reverse_eq_nil_iff, List.map_eq_nil_iff]
    exact Nat.digits_ne_nil_iff_ne_zero.mpr hz

theorem mem_natCharsPos_digit (n : Nat) : ∀ c ∈ natCharsPos n, isDigitChar c = true := by
  intro c hc
  unfold natCharsPos at hc
  by_cases hz : n = 0
  · rw [if_pos hz] at hc
    simp at hc
    subst hc
    decide
  · rw [if_neg hz, natCharsAux_eq (n + 1) n (Nat.le_succ n)] at hc
    rw [List.mem_reverse, List.mem_map] at hc
    obtain ⟨d, hd, rfl⟩ := hc
    exact isDigitChar_digitChar d (Nat.digits_lt_base (by norm_num) hd)

theorem foldl_digits_val (L : List Nat) (hL : ∀ d ∈ L, d < 10) : ∀ a : Nat,
    ((L.map digitChar).reverse.foldl (fun acc c => acc * 10 + charVal c) a)
      = a * 10 ^ L.length + Nat.ofDigits 10 L := by
  induction L with
  | nil => intro a; simp [Nat.ofDigits]
  | cons d L ih =>
    intro a
    rw [List.map_cons, List.reverse_cons, List.foldl_append]
    rw [ih (fun x hx => hL x (List.mem_cons_of_mem _ hx)) a]
    simp only [List.foldl_cons, List.foldl_nil]
    rw [charVal_digitChar d (hL d (List.mem_cons_self _ _)), Nat.ofDigits_cons]
    rw [List.length_cons, Nat.pow_succ]
    ring

theorem digitsVal_natCharsPos (n : Nat) :
    (natCharsPos n).foldl (fun acc c => acc * 10 + charVal c) 0 = n := by
  unfold natCharsPos
  by_cases hz : n = 0
  · simp [hz]
    decide
  · rw [if_neg hz, natCharsAux_eq (n + 1) n (Nat.le_succ n)]
    rw [foldl_digits_val (Nat.digits 10 n)
      (fun d hd => Nat.digits_lt_base (by norm_num) hd) 0]
    simp [Nat.ofDigits_digits]

theorem takeWhile_append_of_all {p : Char → Bool} (A B : List Char)
    (hA : ∀ a ∈ A, p a = true)
    (hB : ∀ c, B.head? = some c → p c = false) :
    (A ++ B).takeWhile p = A ∧ (A ++ B).dropWhile p = B := by
  induction A with
  | nil =>
    rcases B with _ | ⟨c, B'⟩
    · simp
    · have := hB c rfl
      simp [List.takeWhile_cons, List.dropWhile_cons, this]
  | cons a A' ih =>
    have ha := hA a (List.mem_cons_self _ _)
    obtain ⟨ht, hd⟩ := ih (fun x hx => hA x (List.mem_cons_of_mem _ hx))
    constructor
    · rw [List.cons_append, List.takeWhile_cons, ha]
      simp [ht]
    · rw [List.cons_append, List.dropWhile_cons, ha]
      simpa using hd

/-- Tails that cannot extend a decimal literal. -/
def NonDigitHead (rest : List Char) : Prop :=
  ∀ c, rest.head? = some c → isDigitChar c = false

theorem parseNatNum_print (n : Nat) (rest : List Char) (hrest : NonDigitHead rest) :
    parseNatNum (natCharsPos n ++ rest) = some (n, rest) := by
  obtain ⟨ht, hd⟩ :=
    takeWhile_append_of_all (natCharsPos n) rest (mem_natCharsPos_digit n) hrest
  unfold parseNatNum
  simp only [ht, hd]
  rw [if_neg (natCharsPos_ne_nil n)]
  rw [digitsVal_natCharsPos n]

theorem parseStrBody_append (s : List Char) (rest : List Char)
    (h : wfStr s = true) :
    parseStrBody (s ++ '\"' :: rest) = some (s, rest) := by
  induction s with
  | nil => simp [parseStrBody]
  | cons c s' ih =>
    rw [wfStr, List.all_cons, Bool.and_eq_true] at h
    obtain ⟨hc, hs'⟩ := h
    rw [wfChar, Bool.and_eq_true, Bool.and_eq_true] at hc
    have hq : ¬ (c = '\"') := by simpa using hc.1.2
    have hb : ¬ (c = '\\') := by simpa using hc.2
    rw [List.cons_append]
    unfold parseStrBody
    rw [if_neg hq, if_neg hb, ih hs']
    rfl

/-! ## First characters of printed values -/

def goodStartChar (c : Char) : Bool :=
  c = '\"' || c = '[' || c = '\x7b' || c = '-' || c = 'n' || c = 't' || c = 'f' ||
    isDigitChar c

theorem natCharsPos_head (n : Nat) :
    ∃ c tl, natCharsPos n = c :: tl ∧ isDigitChar c = true := by
  rcases h : natCharsPos n with _ | ⟨c, tl⟩
  · exact absurd h (natCharsPos_ne_nil n)
  · exact ⟨c, tl, rfl, mem_natCharsPos_digit n c (h ▸ List.mem_cons_self _ _)⟩

theorem printJson_head (v : Json) :
    ∃ c tl, printJson v = c :: tl ∧ goodStartChar c = true := by
  cases v with
  | null => exact ⟨'n', _, rfl, by decide⟩
  | bool b =>
    cases b
    · exact ⟨'f', _, rfl, by decide⟩
    · exact ⟨'t', _, rfl, by decide⟩
  | num n =>
    rw [show printJson (.num n) = numChars n from rfl]
    unfold numChars
    by_cases hneg : n < 0
    · rw [if_pos hneg]
      exact ⟨'-', _, rfl, by decide⟩
    · rw [if_neg hneg]
      obtain ⟨c, tl, he, hd⟩ := natCharsPos_head n.natAbs
      exact ⟨c, tl, he, by unfold goodStartChar; rw [hd]; simp⟩
  | str s => exact ⟨'\"', _, rfl, by decide⟩
  | arr xs =>
    cases xs
    · exact ⟨'[', _, rfl, by decide⟩
    · exact ⟨'[', _, rfl, by decide⟩
  | obj ms =>
    cases ms
    · exact ⟨'\x7b', _, rfl, by decide⟩
    · exact ⟨'\x7b', _, rfl, by decide⟩

theorem goodStart_ne_brackets (c : Char) (h : goodStartChar c = true) :
    ¬ (c = ']') ∧ ¬ (c = '\x7d') := by
  constructor <;> rintro rfl <;> exact absurd h (by decide)

theorem digit_not_special (c : Char) (h : isDigitChar c = true) :
    ¬ (c = '\"') ∧ ¬ (c = '[') ∧ ¬ (c = '\x7b') ∧ ¬ (c = '-') := by
  refine ⟨?_, ?_, ?_, ?_⟩ <;> rintro rfl <;> exact absurd h (by decide)

/-! ## Parser/printer inversion: the main induction -/

theorem parse_print_aux : ∀ fuel : Nat,
    (∀ v rest, wfJson v = true → NonDigitHead rest → (printJson v).length < fuel →
       parseVal fuel (printJson v ++ rest) = some (v, rest)) ∧
    (∀ xs rest, wfElems xs = true → (printTail xs).length < fuel →
       parseElemsTail fuel (printTail xs ++ ']' :: rest) = some (xs, rest)) ∧
    (∀ ms rest, wfMembers ms = true → (printMTail ms).length < fuel →
       parseMembersTail fuel (printMTail ms ++ '\x7d' :: rest) = some (ms, rest)) ∧
    (∀ k w rest, wfStr k = true → wfJson w = true → NonDigitHead rest →
       (printMember (k, w)).length < fuel →
       parseMember fuel (printMember (k, w) ++ rest) = some ((k, w), rest)) := by
  intro fuel
  induction fuel with
  | zero =>
    refine ⟨?_, ?_, ?_, ?_⟩
    · intro v rest h1 h2 h3
      exact absurd h3 (Nat.not_lt_zero _)
    · intro xs rest h1 h2
      exact absurd h2 (Nat.not_lt_zero _)
    · intro ms rest h1 h2
      exact absurd h2 (Nat.not_lt_zero _)
    · intro k w rest h1 h2 h3 h4
      exact absurd h4 (Nat.not_lt_zero _)
  | succ fuel ih =>
    obtain ⟨ihV, ihE, ihM, ihMem⟩ := ih
    refine ⟨?_, ?_, ?_, ?_⟩
    · intro v rest hwf hrest hlen
      cases v with
      | null =>
        show parseVal (fuel + 1) ('n' :: 'u' :: 'l' :: 'l' :: rest)
          = some (Json.null, rest)
        simp only [parseVal]
        rw [if_neg (by decide : ¬(('n' : Char) = '\"')),
            if_neg (by decide : ¬(('n' : Char) = '[')),
            if_neg (by decide : ¬(('n' : Char) = '\x7b')),
            if_neg (by decide : ¬(('n' : Char) = '-')),
            if_neg (by decide : ¬(isDigitChar 'n' = true)),
            if_pos (by simp [List.isPrefixOf] :
              ("null".toList).isPrefixOf ('n' :: 'u' :: 'l' :: 'l' :: rest) = true)]
        rfl
      | bool b =>
        cases b with
        | false =>
          show parseVal (fuel + 1) ('f' :: 'a' :: 'l' :: 's' :: 'e' :: rest)
            = some (Json.bool false, rest)
          simp only [parseVal]
          rw [if_neg (by decide : ¬(('f' : Char) = '\"')),
              if_neg (by decide : ¬(('f' : Char) = '[')),
              if_neg (by decide : ¬(('f' : Char) = '\x7b')),
              if_neg (by decide : ¬(('f' : Char) = '-')),
              if_neg (by decide : ¬(isDigitChar 'f' = true)),
              if_neg (by simp [List.isPrefixOf] :
                ¬ (("null".toList).isPrefixOf ('f' :: 'a' :: 'l' :: 's' :: 'e' :: rest)
                  = true)),
              if_neg (by simp [List.isPrefixOf] :
                ¬ (("true".toList).isPrefixOf ('f' :: 'a' :: 'l' :: 's' :: 'e' :: rest)
                  = true)),
              if_pos (by simp [List.isPrefixOf] :
                ("false".toList).isPrefixOf ('f' :: 'a' :: 'l' :: 's' :: 'e' :: rest)
                  = true)]
          rfl
        | true =>
          show parseVal (fuel + 1) ('t' :: 'r' :: 'u' :: 'e' :: rest)
            = some (Json.bool true, rest)
          simp only [parseVal]
          rw [if_neg (by decide : ¬(('t' : Char) = '\"')),
              if_neg (by decide : ¬(('t' : Char) = '[')),
              if_neg (by decide : ¬(('t' : Char) = '\x7b')),
              if_neg (by decide : ¬(('t' : Char) = '-')),
              if_neg (by decide : ¬(isDigitChar 't' = true)),
              if_neg (by simp [List.isPrefixOf] :
                ¬ (("null".toList).isPrefixOf ('t' :: 'r' :: 'u' :: 'e' :: rest) = true)),
              if_pos (by simp [List.isPrefixOf] :
                ("true".toList).isPrefixOf ('t' :: 'r' :: 'u' :: 'e' :: rest) = true)]
          rfl
      | num n =>
        rw [show printJson (.num n) = numChars n from rfl] at hlen ⊢
        unfold numChars at hlen ⊢
        by_cases hneg : n < 0
        · rw [if_pos hneg] at hlen ⊢
          rw [List.cons_append]
          simp only [parseVal]
          rw [if_neg (by decide : ¬(('-' : Char) = '\"')),
              if_neg (by decide : ¬(('-' : Char) = '[')),
              if_neg (by decide : ¬(('-' : Char) = '\x7b'))]
          rw [if_pos trivial]
          rw [parseNatNum_print n.natAbs rest hrest]
          have habs : -((n.natAbs : Int)) = n := by omega
          rw [Option.map_some']
          simp only [habs]
        · rw [if_neg hneg] at hlen ⊢
          obtain ⟨c, tl, hnc, hdc⟩ := natCharsPos_head n.natAbs
          obtain ⟨h1, h2, h3, h4⟩ := digit_not_special c hdc
          rw [hnc, List.cons_append]
          simp only [parseVal]
          rw [if_neg h1, if_neg h2, if_neg h3, if_neg h4, if_pos hdc]
          rw [← List.cons_append, ← hnc, parseNatNum_print n.natAbs rest hrest]
          have habs : ((n.natAbs : Int)) = n := by omega
          rw [Option.map_some']
          simp only [habs]
      | str s =>
        have hws : wfStr s = true := hwf
        have hshape : printJson (Json.str s) ++ rest = '\"' :: (s ++ ('\"' :: rest)) := by
          show ('\"' :: s ++ ['\"']) ++ rest = _
          simp
        rw [hshape]
        simp only [parseVal]
        rw [if_pos trivial]
        rw [parseStrBody_append s rest hws, Option.map_some']
      | arr xs =>
        cases xs with
        | nil =>
          show parseVal (fuel + 1) ('[' :: ']' :: rest) = some (Json.arr [], rest)
          rfl
        | cons x xs' =>
          have hwf' : wfJson x = true ∧ wfElems xs' = true := by
            have h0 : (wfJson x && wfElems xs') = true := hwf
            rw [Bool.and_eq_true] at h0
            exact h0
          have hpr : printJson (.arr (x :: xs'))
              = '[' :: (printJson x ++ (printTail xs' ++ [']'])) := rfl
          rw [hpr] at hlen
          have hshape : printJson (Json.arr (x :: xs')) ++ rest
              = '[' :: (printJson x ++ (printTail xs' ++ (']' :: rest))) := by
            rw [hpr]
            simp
          rw [hshape]
          simp only [parseVal]
          rw [if_neg (by decide : ¬(('[' : Char) = '\"'))]
          rw [if_pos trivial]
          obtain ⟨c0, tl0, hx0, hgood⟩ := printJson_head x
          have hhead : (printJson x ++ (printTail xs' ++ (']' :: rest))).head?
              = some c0 := by
            rw [hx0, List.cons_append]
            rfl
          have hne : ¬((printJson x ++ (printTail xs' ++ (']' :: rest))).head?
              = some ']') := by
            rw [hhead]
            intro hcontra
            exact (goodStart_ne_brackets c0 hgood).1 (Option.some.inj hcontra)
          rw [if_neg hne]
          have hnd : NonDigitHead (printTail xs' ++ (']' :: rest)) := by
            rcases xs' with _ | ⟨y, ys⟩
            · intro c hc
              rw [show printTail [] = ([] : List Char) from rfl,
                List.nil_append] at hc
              rw [show ((']' :: rest).head? = some c) = (some ']' = some c)
                from rfl] at hc
              rw [← Option.some.inj hc]
              decide
            · intro c hc
              rw [show printTail (y :: ys)
                  = ',' :: (printJson y ++ printTail ys) from rfl,
                List.cons_append] at hc
              rw [← Option.some.inj hc]
              decide
          have hlen1 : (printJson x).length < fuel := by
            simp only [List.length_cons, List.length_append,
              List.length_singleton] at hlen
            omega
          have hlen2 : (printTail xs').length < fuel := by
            simp only [List.length_cons, List.length_append,
              List.length_singleton] at hlen
            omega
          rw [ihV x (printTail xs' ++ (']' :: rest)) hwf'.1 hnd hlen1]
          rw [Option.some_bind]
          rw [ihE xs' rest hwf'.2 hlen2]
          rw [Option.map_some']
      | obj ms =>
        cases ms with
        | nil =>
          show parseVal (fuel + 1) ('\x7b' :: '\x7d' :: rest) = some (Json.obj [], rest)
          rfl
        | cons m ms' =>
          have hwfo : (decide (((m :: ms').map Prod.fst).Nodup)
              && wfMembers (m :: ms')) = true := hwf
          rw [Bool.and_eq_true] at hwfo
          have hnodup : ((m :: ms').map Prod.fst).Nodup := of_decide_eq_true hwfo.1
          have hwfm : (wfStr m.1 && wfJson m.2 && wfMembers ms') = true := hwfo.2
          rw [Bool.and_eq_true, Bool.and_eq_true] at hwfm
          have hpr : printJson (.obj (m :: ms'))
              = '\x7b' :: (printMember m ++ (printMTail ms' ++ ['\x7d'])) := rfl
          rw [hpr] at hlen
          have hshape : printJson (Json.obj (m :: ms')) ++ rest
              = '\x7b' :: (printMember m ++ (printMTail ms' ++ ('\x7d' :: rest))) := by
            rw [hpr]
            simp
          rw [hshape]
          simp only [parseVal]
          rw [if_neg (by decide : ¬(('\x7b' : Char) = '\"')),
              if_neg (by decide : ¬(('\x7b' : Char) = '['))]
          rw [if_pos trivial]
          have hm0 : printMember m = '\"' :: (m.1 ++ '\"' :: ':' :: printJson m.2) := by
            rcases m with ⟨k, w⟩
            rfl
          have hhead : (printMember m ++ (printMTail ms' ++ ('\x7d' :: rest))).head?
              = some '\"' := by
            rw [hm0, List.cons_append]
            rfl
          have hne : ¬((printMember m ++ (printMTail ms' ++ ('\x7d' :: rest))).head?
              = some '\x7d') := by
            rw [hhead]
            intro hcontra
            exact absurd (Option.some.inj hcontra) (by decide)
          rw [if_neg hne]
          have hnd : NonDigitHead (printMTail ms' ++ ('\x7d' :: rest)) := by
            rcases ms' with _ | ⟨m2, ms2⟩
            · intro c hc
              rw [show printMTail [] = ([] : List Char) from rfl,
                List.nil_append] at hc
              rw [← Option.some.inj hc]
              decide
            · intro c hc
              rw [show printMTail (m2 :: ms2)
                  = ',' :: (printMember m2 ++ printMTail ms2) from rfl,
                List.cons_append] at hc
              rw [← Option.some.inj hc]
              decide
          have hlen1 : (printMember m).length < fuel := by
            simp only [List.length_cons, List.length_append,
              List.length_singleton] at hlen
            omega
          have hlen2 : (printMTail ms').length < fuel := by
            simp only [List.length_cons, List.length_append,
              List.length_singleton] at hlen
            omega
          have hmem := ihMem m.1 m.2 (printMTail ms' ++ ('\x7d' :: rest))
            hwfm.1.1 hwfm.1.2 hnd (by rw [show ((m.1, m.2) : List Char × Json) = m from rfl]; exact hlen1)
          rw [show ((m.1, m.2) : List Char × Json) = m from rfl] at hmem
          rw [hmem, Option.some_bind]
          rw [ihM ms' rest hwfm.2 hlen2]
          rw [Option.map_some']
          rw [pyDict_nodup (m :: ms') hnodup]
    · intro xs rest hwf hlen
      cases xs with
      | nil =>
        show parseElemsTail (fuel + 1) (']' :: rest) = some ([], rest)
        rfl
      | cons x xs' =>
        have hwf' : wfJson x = true ∧ wfElems xs' = true := by
          have h0 : (wfJson x && wfElems xs') = true := hwf
          rw [Bool.and_eq_true] at h0
          exact h0
        rw [show printTail (x :: xs') = ',' :: (printJson x ++ printTail xs') from rfl]
          at hlen
        have hshape : printTail (x :: xs') ++ (']' :: rest)
            = ',' :: (printJson x ++ (printTail xs' ++ (']' :: rest))) := by
          rw [show printTail (x :: xs') = ',' :: (printJson x ++ printTail xs') from rfl]
          simp
        rw [hshape]
        simp only [parseElemsTail]
        have hnd : NonDigitHead (printTail xs' ++ (']' :: rest)) := by
          rcases xs' with _ | ⟨y, ys⟩
          · intro c hc
            rw [show printTail [] = ([] : List Char) from rfl, List.nil_append] at hc
            rw [← Option.some.inj hc]
            decide
          · intro c hc
            rw [show printTail (y :: ys)
                = ',' :: (printJson y ++ printTail ys) from rfl,
              List.cons_append] at hc
            rw [← Option.some.inj hc]
            decide
        have hlen1 : (printJson x).length < fuel := by
          simp only [List.length_cons, List.length_append] at hlen
          omega
        have hlen2 : (printTail xs').length < fuel := by
          simp only [List.length_cons, List.length_append] at hlen
          omega
        rw [ihV x (printTail xs' ++ (']' :: rest)) hwf'.1 hnd hlen1]
        rw [Option.some_bind]
        rw [ihE xs' rest hwf'.2 hlen2]
        rw [Option.map_some']
    · intro ms rest hwf hlen
      cases ms with
      | nil =>
        show parseMembersTail (fuel + 1) ('\x7d' :: rest) = some ([], rest)
        rfl
      | cons m ms' =>
        have hwfm : (wfStr m.1 && wfJson m.2 && wfMembers ms') = true := hwf
        rw [Bool.and_eq_true, Bool.and_eq_true] at hwfm
        rw [show printMTail (m :: ms') = ',' :: (printMember m ++ printMTail ms') from rfl]
          at hlen
        have hshape : printMTail (m :: ms') ++ ('\x7d' :: rest)
            = ',' :: (printMember m ++ (printMTail ms' ++ ('\x7d' :: rest))) := by
          rw [show printMTail (m :: ms') = ',' :: (printMember m ++ printMTail ms') from rfl]
          simp
        rw [hshape]
        simp only [parseMembersTail]
        have hnd : NonDigitHead (printMTail ms' ++ ('\x7d' :: rest)) := by
          rcases ms' with _ | ⟨m2, ms2⟩
          · intro c hc
            rw [show printMTail [] = ([] : List Char) from rfl, List.nil_append] at hc
            rw [← Option.some.inj hc]
            decide
          · intro c hc
            rw [show printMTail (m2 :: ms2)
                = ',' :: (printMember m2 ++ printMTail ms2) from rfl,
              List.cons_append] at hc
            rw [← Option.some.inj hc]
            decide
        have hlen1 : (printMember m).length < fuel := by
          simp only [List.length_cons, List.length_append] at hlen
          omega
        have hlen2 : (printMTail ms').length < fuel := by
          simp only [List.length_cons, List.length_append] at hlen
          omega
        have hmem := ihMem m.1 m.2 (printMTail ms' ++ ('\x7d' :: rest))
          hwfm.1.1 hwfm.1.2 hnd (by rw [show ((m.1, m.2) : List Char × Json) = m from rfl]; exact hlen1)
        rw [show ((m.1, m.2) : List Char × Json) = m from rfl] at hmem
        rw [hmem, Option.some_bind]
        rw [ihM ms' rest hwfm.2 hlen2]
        rw [Option.map_some']
    · intro k w rest hk hw hrest hlen
      rw [show printMember (k, w) = '\"' :: k ++ '\"' :: ':' :: printJson w from rfl]
        at hlen
      have hshape : printMember (k, w) ++ rest
          = '\"' :: (k ++ ('\"' :: (':' :: (printJson w ++ rest)))) := by
        rw [show printMember (k, w) = '\"' :: k ++ '\"' :: ':' :: printJson w from rfl]
        simp
      rw [hshape]
      simp only [parseMember]
      rw [parseStrBody_append k _ hk, Option.some_bind]
      have hlen1 : (printJson w).length < fuel := by
        simp only [List.length_cons, List.length_append] at hlen
        omega
      show (Option.map (fun x => ((k, x.1), x.2)) (parseVal fuel (printJson w ++ rest)))
        = some ((k, w), rest)
      rw [ihV w rest hw hrest hlen1]
      rw [Option.map_some']

/-- `json.loads ∘ json.dumps` is the identity on the modelled fragment. -/
theorem parseJson_printJson (v : Json) (hwf : wfJson v = true) :
    parseJson (printJson v) = some v := by
  unfold parseJson
  have h := (parse_print_aux ((printJson v).length + 1)).1 v [] hwf
    (fun c hc => absurd hc (by simp)) (Nat.lt_succ_self _)
  rw [List.append_nil] at h
  rw [h]

/-! ## Clean-up (fence stripping) lemmas -/

theorem mem_of_getLast?_eq (l : List Char) (a : Char) (h : l.getLast? = some a) :
    a ∈ l := by
  have h2 : l.reverse.head? = some a := by rw [List.head?_reverse]; exact h
  rcases hr : l.reverse with _ | ⟨b, t⟩
  · rw [hr] at h2; cases h2
  · rw [hr] at h2
    have hb : b = a := Option.some.inj h2
    rw [← List.mem_reverse, hr, hb]
    exact List.mem_cons_self _ _

/-- Characters a printed JSON value may end with: not whitespace, not a
backtick. -/
def goodEndChar (c : Char) : Bool := !(pyIsSpace c) && !(c = '`')

theorem digit_goodEnd (c : Char) (h : isDigitChar c = true) : goodEndChar c = true := by
  unfold goodEndChar
  rw [Bool.and_eq_true, Bool.not_eq_true', Bool.not_eq_true']
  constructor
  · rw [Bool.eq_false_iff]
    intro hs
    rw [pyIsSpace] at hs
    simp only [Bool.or_eq_true, decide_eq_true_eq] at hs
    rcases hs with ((((rfl | rfl) | rfl) | rfl) | rfl) | rfl <;> exact absurd h (by decide)
  · rw [decide_eq_false_iff_not]
    rintro rfl
    exact absurd h (by decide)

theorem goodStart_facts (c : Char) (h : goodStartChar c = true) :
    pyIsSpace c = false ∧ ¬ c = '`' := by
  rw [goodStartChar] at h
  simp only [Bool.or_eq_true, decide_eq_true_eq] at h
  rcases h with ((((((rfl | rfl) | rfl) | rfl) | rfl) | rfl) | rfl) | hd
  · exact ⟨by decide, by decide⟩
  · exact ⟨by decide, by decide⟩
  · exact ⟨by decide, by decide⟩
  · exact ⟨by decide, by decide⟩
  · exact ⟨by decide, by decide⟩
  · exact ⟨by decide, by decide⟩
  · exact ⟨by decide, by decide⟩
  · have := digit_goodEnd c hd
    rw [goodEndChar, Bool.and_eq_true, Bool.not_eq_true', Bool.not_eq_true'] at this
    exact ⟨this.1, by simpa using this.2⟩

theorem natCharsPos_getLast (m : Nat) :
    ∃ c, (natCharsPos m).getLast? = some c ∧ isDigitChar c = true := by
  rcases h : (natCharsPos m).getLast? with _ | c
  · exact absurd (List.getLast?_eq_none_iff.mp h) (natCharsPos_ne_nil m)
  · exact ⟨c, rfl, mem_natCharsPos_digit m c (mem_of_getLast?_eq _ c h)⟩

theorem printJson_getLast (v : Json) :
    ∃ c, (printJson v).getLast? = some c ∧ goodEndChar c = true := by
  cases v with
  | null => exact ⟨'l', by decide, by decide⟩
  | bool b =>
    cases b
    · exact ⟨'e', by decide, by decide⟩
    · exact ⟨'e', by decide, by decide⟩
  | num n =>
    rw [show printJson (.num n) = numChars n from rfl]
    unfold numChars
    obtain ⟨c, hc, hd⟩ := natCharsPos_getLast n.natAbs
    by_cases hneg : n < 0
    · rw [if_pos hneg]
      refine ⟨c, ?_, digit_goodEnd c hd⟩
      rw [getLast?_cons, hc]
    · rw [if_neg hneg]
      exact ⟨c, hc, digit_goodEnd c hd⟩
  | str s =>
    refine ⟨'\"', ?_, by decide⟩
    rw [show printJson (.str s) = ('\"' :: s) ++ ['\"'] from rfl]
    exact List.getLast?_concat _
  | arr xs =>
    cases xs with
    | nil => exact ⟨']', by decide, by decide⟩
    | cons x xs' =>
      refine ⟨']', ?_, by decide⟩
      rw [show printJson (.arr (x :: xs'))
          = ('[' :: (printJson x ++ printTail xs')) ++ [']'] by
        rw [show printJson (.arr (x :: xs'))
            = '[' :: (printJson x ++ (printTail xs' ++ [']'])) from rfl]
        simp]
      exact List.getLast?_concat _
  | obj ms =>
    cases ms with
    | nil => exact ⟨'\x7d', by decide, by decide⟩
    | cons m ms' =>
      refine ⟨'\x7d', ?_, by decide⟩
      rw [show printJson (.obj (m :: ms'))
          = ('\x7b' :: (printMember m ++ printMTail ms')) ++ ['\x7d'] by
        rw [show printJson (.obj (m :: ms'))
            = '\x7b' :: (printMember m ++ (printMTail ms' ++ ['\x7d'])) from rfl]
        simp]
      exact List.getLast?_concat _

theorem dropWhile_head_keep (l : List Char)
    (h : ∀ c, l.head? = some c → pyIsSpace c = false) :
    l.dropWhile pyIsSpace = l := by
  rcases l with _ | ⟨c, t⟩
  · rfl
  · rw [List.dropWhile_cons, h c rfl]
    simp

theorem pyStrip_id (l : List Char)
    (hh : ∀ c, l.head? = some c → pyIsSpace c = false)
    (hl : ∀ c, l.getLast? = some c → pyIsSpace c = false) :
    pyStrip l = l := by
  unfold pyStrip
  rw [dropWhile_head_keep l hh]
  rw [dropWhile_head_keep l.reverse
    (fun c hc => hl c (by rwa [List.head?_reverse] at hc))]
  exact List.reverse_reverse l

theorem pyStrip_newline_wrap (X : List Char)
    (hh : ∀ c, X.head? = some c → pyIsSpace c = false)
    (hl : ∀ c, X.getLast? = some c → pyIsSpace c = false)
    (hne : X ≠ []) :
    pyStrip ('\n' :: (X ++ ['\n'])) = X := by
  unfold pyStrip
  rw [List.dropWhile_cons]
  rw [show pyIsSpace '\n' = true from rfl]
  simp only [if_true]
  rw [dropWhile_head_keep (X ++ ['\n']) (by
    rcases X with _ | ⟨x0, X'⟩
    · exact absurd rfl hne
    · intro c hc
      rw [List.cons_append] at hc
      exact hh c (by rw [← Option.some.inj hc]; rfl))]
  rw [List.reverse_append]
  rw [show (['\n'] : List Char).reverse = ['\n'] from rfl, List.singleton_append]
  rw [List.dropWhile_cons]
  rw [show pyIsSpace '\n' = true from rfl]
  simp only [if_true]
  rw [dropWhile_head_keep X.reverse
    (fun c hc => hl c (by rwa [List.head?_reverse] at hc))]
  exact List.reverse_reverse X

theorem isPrefixOf_append_self (s t : List Char) : s.isPrefixOf (s ++ t) = true := by
  induction s with
  | nil => simp [List.isPrefixOf]
  | cons a s' ih => simp [List.isPrefixOf, ih]

theorem afterFirstSep_self (sep r : List Char) (hsep : sep ≠ []) :
    afterFirstSep sep (sep ++ r) = some r := by
  rcases sep with _ | ⟨a, s'⟩
  · exact absurd rfl hsep
  · rw [List.cons_append]
    unfold afterFirstSep
    rw [if_pos (by
      rw [show (a :: (s' ++ r)) = (a :: s') ++ r from rfl]
      exact isPrefixOf_append_self (a :: s') r)]
    rw [show (a :: (s' ++ r)) = (a :: s') ++ r from rfl, List.drop_left]

theorem tick_strip_left (A : List Char) :
    ∀ X, (∀ c ∈ A, ¬ c = '`') → fenceChars <:+: (A ++ X) → fenceChars <:+: X := by
  induction A with
  | nil => intro X _ h; exact h
  | cons a A' ih =>
    intro X hA h
    rw [List.cons_append] at h
    rcases List.infix_cons_iff.mp h with hpre | h'
    · exfalso
      have hpre' : ('`' :: ['`', '`'] : List Char) <+: a :: (A' ++ X) := hpre
      have hae := (List.cons_prefix_cons.mp hpre').1
      exact hA a (List.mem_cons_self _ _) hae.symm
    · exact ih X (fun c hc => hA c (List.mem_cons_of_mem _ hc)) h'

theorem noFence_pad (X A B : List Char)
    (hX : ¬ (fenceChars <:+: X))
    (hA : ∀ c ∈ A, ¬ c = '`') (hB : ∀ c ∈ B, ¬ c = '`') :
    ¬ (fenceChars <:+: (A ++ (X ++ B))) := by
  intro h
  have h1 : fenceChars <:+: (X ++ B) := tick_strip_left A _ hA h
  have h2 : fenceChars.reverse <:+: (X ++ B).reverse := List.reverse_infix.mpr h1
  rw [List.reverse_append, show (fenceChars.reverse : List Char) = fenceChars from rfl] at h2
  have h4 : fenceChars <:+: X.reverse :=
    tick_strip_left B.reverse _ (fun c hc => hB c (List.mem_reverse.mp hc)) h2
  have h5 : fenceChars <:+: X := by
    rw [show (fenceChars : List Char) = fenceChars.reverse from rfl] at h4
    exact List.reverse_infix.mp h4
  exact hX h5

theorem fence_not_prefix_step (c : Char) (Y' : List Char)
    (hno : ¬ (fenceChars <:+: (c :: Y')))
    (hl : ∀ e, (c :: Y').getLast? = some e → ¬ e = '`') :
    fenceChars.isPrefixOf ((c :: Y') ++ fenceChars) = false := by
  rcases Y' with _ | ⟨d, Y''⟩
  · have hc : ¬ c = '`' := hl c rfl
    have hb : ('`' == c) = false := beq_eq_false_iff_ne.mpr (fun h => hc h.symm)
    simp [fenceChars, List.isPrefixOf, hb]
  · rcases Y'' with _ | ⟨e, Y'''⟩
    · have hd : ¬ d = '`' := hl d rfl
      have hb : ('`' == d) = false := beq_eq_false_iff_ne.mpr (fun h => hd h.symm)
      simp [fenceChars, List.isPrefixOf, hb]
    · by_cases hc : c = '`'
      · by_cases hd : d = '`'
        · by_cases he : e = '`'
          · exfalso
            apply hno
            subst hc; subst hd; subst he
            exact ⟨[], Y''', by simp [fenceChars]⟩
          · have hb : ('`' == e) = false := beq_eq_false_iff_ne.mpr (fun h => he h.symm)
            simp [fenceChars, List.isPrefixOf, hb]
        · have hb : ('`' == d) = false := beq_eq_false_iff_ne.mpr (fun h => hd h.symm)
          simp [fenceChars, List.isPrefixOf, hb]
      · have hb : ('`' == c) = false := beq_eq_false_iff_ne.mpr (fun h => hc h.symm)
        simp [fenceChars, List.isPrefixOf, hb]

theorem takeUntilSep_fence_boundary :
    ∀ (Y : List Char), ¬ (fenceChars <:+: Y) →
      (∀ e, Y.getLast? = some e → ¬ e = '`') →
      takeUntilSep fenceChars (Y ++ fenceChars) = Y := by
  intro Y
  induction Y with
  | nil =>
    intro _ _
    rfl
  | cons c Y' ih =>
    intro hno hl
    rw [List.cons_append]
    unfold takeUntilSep
    rw [show (c :: (Y' ++ fenceChars)) = (c :: Y') ++ fenceChars from rfl,
      fence_not_prefix_step c Y' hno hl]
    simp only [Bool.false_eq_true, if_false]
    have hno' : ¬ (fenceChars <:+: Y') := by
      intro h
      exact hno (List.infix_cons_iff.mpr (Or.inr h))
    have hl' : ∀ e, Y'.getLast? = some e → ¬ e = '`' := by
      rcases Y' with _ | ⟨y, ys⟩
      · intro e he
        cases he
      · intro e he
        exact hl e (by rw [List.getLast?_cons_cons]; exact he)
    rw [ih hno' hl']

/-! ## cleanText on printed (and optionally fenced) replies -/

/-- The optional markdown wrapper with a `json` format tag on the first
line (modelled from the spec's description of fenced model replies). -/
def wrapTagged (s : List Char) : List Char :=
  ("```json\n".toList) ++ s ++ ("\n```".toList)

/-- The optional markdown wrapper without a format tag. -/
def wrapPlain (s : List Char) : List Char :=
  ("```\n".toList) ++ s ++ ("\n```".toList)

theorem printJson_head_facts (v : Json) :
    (∀ c, (printJson v).head? = some c → pyIsSpace c = false) ∧
    (∀ c, (printJson v).head? = some c → ¬ c = '`') ∧ printJson v ≠ [] := by
  obtain ⟨c0, tl, hx, hgood⟩ := printJson_head v
  obtain ⟨hsp, htick⟩ := goodStart_facts c0 hgood
  refine ⟨?_, ?_, ?_⟩
  · intro c hc
    rw [hx] at hc
    rw [← Option.some.inj hc]
    exact hsp
  · intro c hc
    rw [hx] at hc
    rw [← Option.some.inj hc]
    exact htick
  · rw [hx]
    exact List.cons_ne_nil _ _

theorem printJson_getLast_facts (v : Json) :
    (∀ c, (printJson v).getLast? = some c → pyIsSpace c = false) ∧
    (∀ c, (printJson v).getLast? = some c → ¬ c = '`') := by
  obtain ⟨c1, hlast, hend⟩ := printJson_getLast v
  rw [goodEndChar, Bool.and_eq_true, Bool.not_eq_true', Bool.not_eq_true'] at hend
  constructor
  · intro c hc
    rw [hlast] at hc
    rw [← Option.some.inj hc]
    exact hend.1
  · intro c hc
    rw [hlast] at hc
    rw [← Option.some.inj hc]
    simpa using hend.2

/-- An unwrapped printed reply passes through the clean-up untouched. -/
theorem cleanText_print (v : Json) : cleanText (printJson v) = printJson v := by
  obtain ⟨hh, hht, hne⟩ := printJson_head_facts v
  obtain ⟨hl, hlt⟩ := printJson_getLast_facts v
  have hstrip : pyStrip (printJson v) = printJson v := pyStrip_id _ hh hl
  obtain ⟨c0, tl, hx, hgood⟩ := printJson_head v
  have hpf : fenceChars.isPrefixOf (printJson v) = false := by
    rw [hx]
    have hb : ('`' == c0) = false :=
      beq_eq_false_iff_ne.mpr (fun h => (hht c0 (by rw [hx]; rfl)) h.symm)
    simp [fenceChars, List.isPrefixOf, hb]
  unfold cleanText stripFence
  rw [hstrip, hpf]
  simp only [Bool.false_eq_true, if_false]
  exact hstrip

/-- A printed reply wrapped in a tagged fence block cleans to the printed
text, provided the text contains no fence of its own. -/
theorem cleanText_wrapTagged (v : Json)
    (hnof : ¬ (fenceChars <:+: printJson v)) :
    cleanText (wrapTagged (printJson v)) = printJson v := by
  obtain ⟨hh, hht, hne⟩ := printJson_head_facts v
  obtain ⟨hl, hlt⟩ := printJson_getLast_facts v
  have hshape : wrapTagged (printJson v)
      = fenceChars ++ ((("json\n".toList) ++ (printJson v ++ ['\n'])) ++ fenceChars) := by
    unfold wrapTagged
    rw [show ("```json\n".toList : List Char) = fenceChars ++ ("json\n".toList) from rfl,
        show ("\n```".toList : List Char) = ['\n'] ++ fenceChars from rfl]
    simp [List.append_assoc]
  have hY : ∀ e, ((("json\n".toList) ++ (printJson v ++ ['\n'])) : List Char).getLast?
      = some e → ¬ e = '`' := by
    intro e he
    rw [show (("json\n".toList) ++ (printJson v ++ ['\n'])) =
      ((("json\n".toList) ++ printJson v) ++ ['\n']) by simp, List.getLast?_concat] at he
    rw [← Option.some.inj he]
    decide
  have hYnof : ¬ (fenceChars <:+: (("json\n".toList) ++ (printJson v ++ ['\n']))) :=
    noFence_pad (printJson v) ("json\n".toList) ['\n'] hnof (by decide) (by decide)
  have hstrip0 : pyStrip (wrapTagged (printJson v)) = wrapTagged (printJson v) := by
    refine pyStrip_id _ ?_ ?_
    · intro c hc
      rw [show (wrapTagged (printJson v)).head? = some '`' by
        unfold wrapTagged
        rfl] at hc
      rw [← Option.some.inj hc]
      decide
    · intro c hc
      rw [hshape, show fenceChars ++ ((("json\n".toList) ++ (printJson v ++ ['\n'])) ++ fenceChars)
          = (fenceChars ++ ((("json\n".toList) ++ (printJson v ++ ['\n'])) ++ ['`', '`'])) ++ ['`'] by
        simp [fenceChars], List.getLast?_concat] at hc
      rw [← Option.some.inj hc]
      decide
  unfold cleanText stripFence
  rw [hstrip0, hshape]
  rw [isPrefixOf_append_self fenceChars _]
  simp only [if_true]
  unfold pySplitSecond
  rw [afterFirstSep_self fenceChars _ (by decide)]
  show pyStrip (dropTag (takeUntilSep fenceChars
    ((("json\n".toList) ++ (printJson v ++ ['\n'])) ++ fenceChars))) = printJson v
  rw [takeUntilSep_fence_boundary _ hYnof hY]
  unfold dropTag
  rw [show ((("json\n".toList) ++ (printJson v ++ ['\n'])) : List Char)
      = 'j' :: 's' :: 'o' :: 'n' :: ('\n' :: (printJson v ++ ['\n'])) from rfl]
  rw [show (jsonTagChars.isPrefixOf
      ('j' :: 's' :: 'o' :: 'n' :: ('\n' :: (printJson v ++ ['\n'])))) = true by
    simp [jsonTagChars, List.isPrefixOf]]
  simp only [if_true]
  rw [show ('j' :: 's' :: 'o' :: 'n' :: ('\n' :: (printJson v ++ ['\n']))).drop 4
      = '\n' :: (printJson v ++ ['\n']) from rfl]
  exact pyStrip_newline_wrap _ hh hl hne

/-- A printed reply wrapped in an untagged fence block cleans to the
printed text, provided the text contains no fence of its own. -/
theorem cleanText_wrapPlain (v : Json)
    (hnof : ¬ (fenceChars <:+: printJson v)) :
    cleanText (wrapPlain (printJson v)) = printJson v := by
  obtain ⟨hh, hht, hne⟩ := printJson_head_facts v
  obtain ⟨hl, hlt⟩ := printJson_getLast_facts v
  have hshape : wrapPlain (printJson v)
      = fenceChars ++ (('\n' :: (printJson v ++ ['\n'])) ++ fenceChars) := by
    unfold wrapPlain
    rw [show ("```\n".toList : List Char) = fenceChars ++ ['\n'] from rfl,
        show ("\n```".toList : List Char) = ['\n'] ++ fenceChars from rfl]
    simp [List.append_assoc]
  have hY : ∀ e, (('\n' :: (printJson v ++ ['\n'])) : List Char).getLast?
      = some e → ¬ e = '`' := by
    intro e he
    rw [show ('\n' :: (printJson v ++ ['\n'])) =
      (('\n' :: printJson v) ++ ['\n']) by simp, List.getLast?_concat] at he
    rw [← Option.some.inj he]
    decide
  have hYnof : ¬ (fenceChars <:+: ('\n' :: (printJson v ++ ['\n']))) := by
    have := noFence_pad (printJson v) ['\n'] ['\n'] hnof (by decide) (by decide)
    simpa using this
  have hstrip0 : pyStrip (wrapPlain (printJson v)) = wrapPlain (printJson v) := by
    refine pyStrip_id _ ?_ ?_
    · intro c hc
      rw [show (wrapPlain (printJson v)).head? = some '`' by
        unfold wrapPlain
        rfl] at hc
      rw [← Option.some.inj hc]
      decide
    · intro c hc
      rw [hshape, show fenceChars ++ (('\n' :: (printJson v ++ ['\n'])) ++ fenceChars)
          = (fenceChars ++ (('\n' :: (printJson v ++ ['\n'])) ++ ['`', '`'])) ++ ['`'] by
        simp [fenceChars], List.getLast?_concat] at hc
      rw [← Option.some.inj hc]
      decide
  unfold cleanText stripFence
  rw [hstrip0, hshape]
  rw [isPrefixOf_append_self fenceChars _]
  simp only [if_true]
  unfold pySplitSecond
  rw [afterFirstSep_self fenceChars _ (by decide)]
  show pyStrip (dropTag (takeUntilSep fenceChars
    (('\n' :: (printJson v ++ ['\n'])) ++ fenceChars))) = printJson v
  rw [takeUntilSep_fence_boundary _ hYnof hY]
  unfold dropTag
  rw [show (jsonTagChars.isPrefixOf ('\n' :: (printJson v ++ ['\n']))) = false by
    simp [jsonTagChars, List.isPrefixOf]]
  simp only [Bool.false_eq_true, if_false]
  exact pyStrip_newline_wrap _ hh hl hne

/-! ## Project-store lookup lemmas -/

theorem pyLookup_cons (x : List Char × ProjectEntry) (l : List (List Char × ProjectEntry))
    (k : List Char) :
    pyLookup (x :: l) k = if x.1 = k then some x.2 else pyLookup l k := by
  unfold pyLookup
  by_cases h : x.1 = k
  · rw [List.find?_cons_of_pos _ (by simpa using h), if_pos h]
    rfl
  · rw [List.find?_cons_of_neg _ (by simpa using h), if_neg h]

theorem pyLookup_mapset (db : List (List Char × ProjectEntry)) (pid k : List Char)
    (f : ProjectEntry → ProjectEntry) :
    pyLookup (db.map (fun p => if p.1 = pid then (p.1, f p.2) else p)) k =
      if k = pid then (pyLookup db pid).map f else pyLookup db k := by
  induction db with
  | nil => by_cases hk : k = pid <;> simp [pyLookup, hk]
  | cons p d ih =>
    have hfst : (if p.1 = pid then (p.1, f p.2) else p).1 = p.1 := by
      by_cases hp : p.1 = pid <;> simp [hp]
    rw [List.map_cons, pyLookup_cons, hfst, pyLookup_cons, pyLookup_cons]
    by_cases hpk : p.1 = k
    · rw [if_pos hpk, if_pos hpk]
      by_cases hk : k = pid
      · rw [if_pos hk, if_pos (hk ▸ hpk)]
        simp [hk ▸ hpk]
      · rw [if_neg hk, if_neg (fun h => hk (by rw [← hpk, h]))]
    · rw [if_neg hpk, if_neg hpk, ih]
      by_cases hk : k = pid
      · rw [if_pos hk, if_pos hk, if_neg (fun h => hpk (by rw [h, hk]))]
      · rw [if_neg hk, if_neg hk]

theorem pyLookup_append_single (db : List (List Char × ProjectEntry))
    (k0 k : List Char) (v : ProjectEntry) (h : pyLookup db k0 = none) :
    pyLookup (db ++ [(k0, v)]) k = if k = k0 then some v else pyLookup db k := by
  induction db with
  | nil =>
    by_cases hk : k = k0
    · simp [pyLookup, hk]
    · rw [List.nil_append, pyLookup_cons, if_neg (fun h' => hk h'.symm), if_neg hk]
  | cons p d ih =>
    rw [List.cons_append, pyLookup_cons, pyLookup_cons]
    rw [pyLookup_cons] at h
    by_cases hpk : p.1 = k
    · rw [if_pos hpk, if_pos hpk]
      by_cases hk : k = k0
      · rw [if_pos (hk ▸ hpk)] at h
        exact absurd h (by simp)
      · rw [if_neg hk]
    · rw [if_neg hpk, if_neg hpk]
      by_cases hp0 : p.1 = k0
      · rw [if_pos hp0] at h
        exact absurd h (by simp)
      · rw [if_neg hp0] at h
        exact ih h

theorem any_key_iff_lookup (db : List (List Char × ProjectEntry)) (k : List Char) :
    db.any (fun p => p.1 = k) = true ↔ (pyLookup db k).isSome := by
  induction db with
  | nil => simp [pyLookup]
  | cons p d ih =>
    rw [List.any_cons, pyLookup_cons]
    by_cases hp : p.1 = k
    · simp [hp]
    · simp only [if_neg hp]
      rw [Bool.or_eq_true]
      constructor
      · intro h
        rcases h with h | h
        · exact absurd (by simpa using h) hp
        · exact ih.mp h
      · intro h
        exact Or.inr (ih.mpr h)

theorem pyLookup_setEntry (db : List (List Char × ProjectEntry)) (k0 k : List Char)
    (v : ProjectEntry) :
    pyLookup (pySetEntry db k0 v) k = if k = k0 then some v else pyLookup db k := by
  unfold pySetEntry
  by_cases h : db.any (fun p => p.1 = k0) = true
  · rw [if_pos h]
    have hm := pyLookup_mapset db k0 k (fun _ => v)
    refine Eq.trans (by exact hm) ?_
    rcases hs : pyLookup db k0 with _ | w
    · rw [any_key_iff_lookup, hs] at h
      simp at h
    · by_cases hk : k = k0
      · rw [if_pos hk, if_pos hk]
        rfl
      · rw [if_neg hk, if_neg hk]
  · rw [if_neg h]
    refine pyLookup_append_single db k0 k v ?_
    rw [any_key_iff_lookup] at h
    rcases hs : pyLookup db k0 with _ | w
    · rfl
    · exact absurd (by rw [hs]; rfl) h

/-! ## Helper accessors used by the claim statements -/

/-- `dict.get` through a `PyResult` (returned value or raised). -/
def pyResultGet (r : PyResult) (k : List Char) : Option Json :=
  match r with
  | .ok v => getOpt v k
  | .raised => none

/-- Sum of the `total` fields of a JSON line-item array (the quantity the
spec says the engine must recompute). -/
def sumLineTotals (items : Option Json) : Int :=
  match items with
  | some (.arr xs) =>
    (xs.map (fun it =>
      match getOpt it ("total".toList) with
      | some (.num n) => n
      | _ => 0)).sum
  | _ => 0

/-- Sum of the `deduction_amount` fields of a JSON deduction array. -/
def sumDeductionAmounts (items : Option Json) : Int :=
  match items with
  | some (.arr xs) =>
    (xs.map (fun it =>
      match getOpt it ("deduction_amount".toList) with
      | some (.num n) => n
      | _ => 0)).sum
  | _ => 0

/-! ## Claim C1 -/

/-- Model reply for the C1 counterexample: line items summing to 100 and 50,
with a summary block whose totals contradict them. -/
def qreplyC1 : Json :=
  .obj [(("materials".toList), .arr [.obj [(("total".toList), .num 100)]]),
        (("labor".toList), .arr [.obj [(("total".toList), .num 50)]]),
        (("summary".toList), .obj [(("materials_total".toList), .num 1),
                                   (("labor_total".toList), .num 2),
                                   (("grand_total".toList), .num 3)])]

/-- C1 counterexample: `generate_repair_quote` returns the model's summary
verbatim.  The reply's material line items sum to 100 and labor to 50, so
the claim demands `materials_total = 100` and
`grand_total = 150 * 1.10 = 165`; the returned quote carries the model's
`materials_total = 1` and `grand_total = 3` unchanged. -/
theorem C1_counterexample :
    pyResultGet (generate_repair_quote [Json.obj []] ("France".toList) ("EUR".toList)
        none (printJson qreplyC1)).2 ("summary".toList)
      = some (.obj [(("materials_total".toList), .num 1),
                    (("labor_total".toList), .num 2),
                    (("grand_total".toList), .num 3)])
    ∧ sumLineTotals (pyResultGet (generate_repair_quote [Json.obj []] ("France".toList)
        ("EUR".toList) none (printJson qreplyC1)).2 ("materials".toList)) = 100
    ∧ sumLineTotals (pyResultGet (generate_repair_quote [Json.obj []] ("France".toList)
        ("EUR".toList) none (printJson qreplyC1)).2 ("labor".toList)) = 50
    ∧ ((1 : Int) = 100) = False
    ∧ ((3 : Int) = 165) = False := by
  refine ⟨rfl, rfl, rfl, by simp, by simp⟩

/-- C1 (corrected): for a non-empty damages list and a model reply that
parses to a JSON object, `generate_repair_quote` invokes the model and
passes every field of the parsed reply through verbatim — the summary block
included — recomputing nothing; the core only sets
`status = "quote_generated"`. -/
theorem generate_repair_quote_passthrough
    (damages : List Json) (country currency : List Char) (dep : Option Int)
    (reply : List Char) (ms : List (List Char × Json))
    (hne : damages ≠ [])
    (hparse : parseJson (cleanText reply) = some (.obj ms)) :
    (generate_repair_quote damages country currency dep reply).1 = true ∧
    (generate_repair_quote damages country currency dep reply).2
      = .ok (.obj (pyDictAdd ms (("status".toList), .str ("quote_generated".toList)))) ∧
    (∀ k, ¬ (k = ("status".toList)) →
      pyResultGet (generate_repair_quote damages country currency dep reply).2 k
        = pyGet ms k) ∧
    pyResultGet (generate_repair_quote damages country currency dep reply).2
      ("status".toList) = some (.str ("quote_generated".toList)) := by
  have hemp : damages.isEmpty = false := by
    rcases damages with _ | ⟨d, ds⟩
    · exact absurd rfl hne
    · rfl
  unfold generate_repair_quote
  rw [hemp]
  simp only [Bool.false_eq_true, if_false, hparse]
  refine ⟨trivial, trivial, ?_, ?_⟩
  · intro k hk
    show pyGet (pyDictAdd ms (("status".toList), .str ("quote_generated".toList))) k
      = pyGet ms k
    rw [pyGet_pyDictAdd, if_neg hk]
  · show pyGet (pyDictAdd ms (("status".toList), .str ("quote_generated".toList)))
      ("status".toList) = some (.str ("quote_generated".toList))
    rw [pyGet_pyDictAdd, if_pos rfl]

/-- C1 witness: the pass-through theorem applied at a concrete non-empty
damages list and a concrete object reply. -/
theorem C1_witness :
    (generate_repair_quote [Json.obj []] ("US".toList) ("USD".toList) none
      (printJson (Json.obj []))).1 = true :=
  (generate_repair_quote_passthrough [Json.obj []] ("US".toList) ("USD".toList) none
    (printJson (Json.obj [])) [] (by simp) rfl).1

/-! ## Claim C2 -/

/-- Model reply for the C2 counterexample: a deduction line of 100, a
`total_deductions` of 50 that contradicts it, and a negative
`deposit_return`. -/
def dreplyC2 : Json :=
  .obj [(("original_deposit".toList), .num 50),
        (("deductions".toList), .arr [.obj [(("deduction_amount".toList), .num 100)]]),
        (("total_deductions".toList), .num 50),
        (("deposit_return".toList), .num (-5))]

/-- C2 counterexample: `calculate_deposit_deductions` passes the model's
figures through verbatim.  The deduction items sum to 100, so the claim
demands `total_deductions = 100` and `deposit_return = max(0, 50-100) = 0`;
the returned record carries the model's `total_deductions = 50` and the
negative `deposit_return = -5` unchanged. -/
theorem C2_counterexample :
    getOpt (calculate_deposit_deductions [] 50 ("USD".toList) none
        (printJson dreplyC2)).2 ("total_deductions".toList) = some (.num 50)
    ∧ sumDeductionAmounts (getOpt (calculate_deposit_deductions [] 50 ("USD".toList)
        none (printJson dreplyC2)).2 ("deductions".toList)) = 100
    ∧ getOpt (calculate_deposit_deductions [] 50 ("USD".toList) none
        (printJson dreplyC2)).2 ("deposit_return".toList) = some (.num (-5))
    ∧ ((-5 : Int) < 0) = True
    ∧ ((50 : Int) = 100) = False := by
  refine ⟨rfl, rfl, rfl, by simp, by simp⟩

/-- C2 (corrected): for a model reply that parses to a JSON object,
`calculate_deposit_deductions` passes every field through verbatim —
`total_deductions` and `deposit_return` included, which may therefore
violate the summation identity and be negative — and only sets
`status = "success"`.  No arithmetic is recomputed and no clamping at zero
happens. -/
theorem calculate_deductions_passthrough
    (damages : List Json) (dep : Int) (currency : List Char) (rq : Option Json)
    (reply : List Char) (ms : List (List Char × Json))
    (hparse : parseJson (cleanText reply) = some (.obj ms)) :
    (calculate_deposit_deductions damages dep currency rq reply).1 = true ∧
    (calculate_deposit_deductions damages dep currency rq reply).2
      = .obj (pyDictAdd ms (("status".toList), .str ("success".toList))) ∧
    (∀ k, ¬ (k = ("status".toList)) →
      getOpt (calculate_deposit_deductions damages dep currency rq reply).2 k
        = pyGet ms k) ∧
    getOpt (calculate_deposit_deductions damages dep currency rq reply).2
      ("status".toList) = some (.str ("success".toList)) := by
  unfold calculate_deposit_deductions
  rw [hparse]
  refine ⟨rfl, rfl, ?_, ?_⟩
  · intro k hk
    show pyGet (pyDictAdd ms (("status".toList), .str ("success".toList))) k = pyGet ms k
    rw [pyGet_pyDictAdd, if_neg hk]
  · show pyGet (pyDictAdd ms (("status".toList), .str ("success".toList)))
      ("status".toList) = some (.str ("success".toList))
    rw [pyGet_pyDictAdd, if_pos rfl]

/-- C2 witness: the pass-through theorem applied at a concrete reply. -/
theorem C2_witness :
    (calculate_deposit_deductions [] 50 ("USD".toList) none
      (printJson dreplyC2)).1 = true :=
  (calculate_deductions_passthrough [] 50 ("USD".toList) none
    (printJson dreplyC2)
    [(("original_deposit".toList), .num 50),
     (("deductions".toList), .arr [.obj [(("deduction_amount".toList), .num 100)]]),
     (("total_deductions".toList), .num 50),
     (("deposit_return".toList), .num (-5))] rfl).1

/-! ## Claim C4 -/

/-- The eleven-term vocabulary the claim (and the spec's §4.1) lists —
modelled from the spec's words; the source scans a different list. -/
def specDamageVocab : List (List Char) :=
  [("water".toList), ("crack".toList), ("hole".toList), ("dent".toList),
   ("scratch".toList), ("stain".toList), ("peel".toList), ("mold".toList),
   ("broken".toList), ("chip".toList), ("wear".toList)]

/-- C4 counterexample: the raw text `"damage"` contains none of the eleven
vocabulary terms the claim lists and does not contain `"no damage"`, so the
claim demands `damage_found = false`; the source also scans for the word
`"damage"` itself and returns `damage_found = true`. -/
theorem C4_counterexample :
    hasDamageWords ("damage".toList) = true
    ∧ specDamageVocab.all (fun w => !(containsSub w (pyLower ("damage".toList)))) = true
    ∧ containsSub ("no damage".toList) (pyLower ("damage".toList)) = false := by
  refine ⟨by decide, by decide, by decide⟩

/-- C4 (corrected): when the reply fails structured parsing, the analyzer
falls back to the heuristic record, and its `damage_found` flag is true iff
the lowercased text contains a term of the source's twelve-word vocabulary —
the eleven the claim lists plus `"damage"` itself — and does not contain the
phrase `"no damage"`. -/
theorem heuristic_vocabulary (raw : List Char)
    (hfail : parseJson (cleanText raw) = none) :
    analyze_damage_extract raw = .ok (heuristicResult raw) ∧
    (hasDamageWords raw = true ↔
      ((∃ w, w ∈ damageVocab ∧ w <:+: pyLower raw) ∧
        ¬ (("no damage".toList) <:+: pyLower raw))) := by
  constructor
  · unfold analyze_damage_extract
    rw [hfail]
  · unfold hasDamageWords containsSub
    rw [Bool.and_eq_true, List.any_eq_true]
    constructor
    · intro ⟨⟨w, hw, hmem⟩, hnot⟩
      refine ⟨⟨w, hw, of_decide_eq_true hmem⟩, ?_⟩
      intro hcon
      rw [Bool.not_eq_true', decide_eq_false_iff_not] at hnot
      exact hnot hcon
    · intro ⟨⟨w, hw, hmem⟩, hnot⟩
      refine ⟨⟨w, hw, decide_eq_true hmem⟩, ?_⟩
      rw [Bool.not_eq_true', decide_eq_false_iff_not]
      exact hnot

/-- C4 witness: the heuristic theorem applied at a concrete unparseable
text containing a damage keyword. -/
theorem C4_witness :
    analyze_damage_extract ("some damage here".toList)
      = .ok (heuristicResult ("some damage here".toList)) :=
  (heuristic_vocabulary ("some damage here".toList) rfl).1

/-! ## Claim C7 -/

/-- C7 counterexample: an empty damages list still makes
`calculate_deposit_deductions` invoke the model (the flag records a model
invocation), contradicting the claimed short-circuit for `computeDeductions`. -/
theorem C7_counterexample :
    (calculate_deposit_deductions [] 100 ("USD".toList) none ("ignored".toList)).1
      = true := rfl

/-- C7 (corrected): `generate_repair_quote` short-circuits an empty damages
list to the deterministic zero-cost record without invoking the model, but
`calculate_deposit_deductions` invokes the model on every call, an empty
damages list included. -/
theorem empty_damages_behavior :
    (∀ (country currency : List Char) (dep : Option Int) (reply : List Char),
      generate_repair_quote [] country currency dep reply
        = (false, .ok (.obj
            [(("status".toList), .str ("no_damages".toList)),
             (("message".toList), .str ("No damages to quote".toList)),
             (("total".toList), .num 0),
             (("currency".toList), .str currency)]))) ∧
    (∀ (damages : List Json) (dep : Int) (currency : List Char) (rq : Option Json)
        (reply : List Char),
      (calculate_deposit_deductions damages dep currency rq reply).1 = true) := by
  constructor
  · intro country currency dep reply
    rfl
  · intro damages dep currency rq reply
    rfl

/-! ## Claim C8 -/

/-- C8 counterexample: a reply that fails structured parsing makes
`calculate_deposit_deductions` return a record tagged `status = "error"`,
contradicting the claim that parse failures never yield an error-tagged
result. -/
theorem C8_counterexample :
    parseJson (cleanText ("not json".toList)) = none
    ∧ getOpt (calculate_deposit_deductions [] 0 ("USD".toList) none
        ("not json".toList)).2 ("status".toList) = some (.str ("error".toList)) :=
  ⟨rfl, rfl⟩

/-- C8 (corrected): extraction never raises on unparseable text, but the
degraded result is not uniformly heuristic/best-effort: `analyze_damage`
degrades to the heuristic record and `extract_lease_info` to a `partial`
record carrying the raw text, while `calculate_deposit_deductions` returns
a record tagged `status = "error"` (still a returned value, with the raw
reply in `raw_response`). -/
theorem parse_failure_degrades (raw : List Char)
    (hfail : parseJson (cleanText raw) = none) :
    analyze_damage_extract raw = .ok (heuristicResult raw) ∧
    extract_lease_info_result raw
      = .obj [(("status".toList), .str ("partial".toList)),
              (("raw_extraction".toList), .str raw),
              (("message".toList),
                .str ("Could not parse structured data, raw extraction provided".toList))] ∧
    (∀ (damages : List Json) (dep : Int) (currency : List Char) (rq : Option Json),
      (calculate_deposit_deductions damages dep currency rq raw).2
        = .obj [(("status".toList), .str ("error".toList)),
                (("message".toList), .str ("Could not calculate deductions".toList)),
                (("raw_response".toList), .str raw)]) := by
  refine ⟨?_, ?_, ?_⟩
  · unfold analyze_damage_extract
    rw [hfail]
  · unfold extract_lease_info_result
    rw [hfail]
  · intro damages dep currency rq
    unfold calculate_deposit_deductions
    rw [hfail]

/-- C8 witness: the degradation theorem applied at a concrete unparseable
text. -/
theorem C8_witness :
    analyze_damage_extract ("oops".toList) = .ok (heuristicResult ("oops".toList)) :=
  (parse_failure_degrades ("oops".toList) rfl).1

/-! ## Claim C3 -/

/-- Floor-plan check result for the C3 counterexample: a plan was found. -/
def fpcC3 : Json :=
  .obj [(("floor_plan_found".toList), .bool true),
        (("floor_plan_info".toList), .obj [])]

/-- A failed `parse_floor_plan` stage result (the exception-path shape). -/
def parseErrC3 : Json :=
  .obj [(("status".toList), .str ("error".toList)),
        (("message".toList), .str ("boom".toList)),
        (("rooms".toList), .arr [])]

/-- A failed image-generation stage result. -/
def imgErrC3 : Json :=
  .obj [(("status".toList), .str ("error".toList)),
        (("message".toList), .str ("No image generated".toList))]

/-- C3 counterexample: with the floor-plan check succeeding and both the
room-parsing and image stages failing, the aggregated result still carries
top-level `status = "success"` — not the `partial` the claim demands when at
least one stage succeeded and at least one failed — and no stage is marked
`skipped`. -/
theorem C3_counterexample :
    getOpt (generate_3d_from_document_endpoint fpcC3 parseErrC3 (Json.obj [])
        (Json.obj []) imgErrC3 ("p1".toList)) ("status".toList)
      = some (.str ("success".toList))
    ∧ getOpt parseErrC3 ("status".toList) = some (.str ("error".toList))
    ∧ getOpt imgErrC3 ("status".toList) = some (.str ("error".toList)) :=
  ⟨rfl, rfl, rfl⟩

/-- C3 (corrected): `generate_3d_from_document_endpoint` computes no status
from stage outcomes.  When the floor-plan check reports a plan, the response
is `status = "success"` unconditionally, with each later stage's own result
embedded verbatim (errors included); when it does not, the response is
`status = "no_floor_plan"` and the later stages are absent from the response
(silently omitted, not marked `skipped`).  `process_lease_document` likewise
reports top-level `status = "success"` regardless of the CONTENT of its two
sub-results whenever it returns at all — that is, whenever the extracted
`security_deposit` field is absent or a dict; when the field is present
with a non-dict value (in particular the `null` the extraction prompt
prescribes for missing data) the chained `.get("amount")` raises an
uncaught `AttributeError`, so the function raises and the endpoint answers
500 with no status record. -/
theorem endpoint_status_aggregation
    (fpc fpd l3 cl img : Json) (pid : List Char) :
    (pyTruthy (getOpt fpc ("floor_plan_found".toList)) = true →
      getOpt (generate_3d_from_document_endpoint fpc fpd l3 cl img pid)
          ("status".toList) = some (.str ("success".toList)) ∧
      getOpt (generate_3d_from_document_endpoint fpc fpd l3 cl img pid)
          ("floor_plan".toList) = some fpd ∧
      getOpt (generate_3d_from_document_endpoint fpc fpd l3 cl img pid)
          ("checklist".toList) = some cl ∧
      getOpt (generate_3d_from_document_endpoint fpc fpd l3 cl img pid)
          ("image_3d".toList) = some img) ∧
    (pyTruthy (getOpt fpc ("floor_plan_found".toList)) = false →
      getOpt (generate_3d_from_document_endpoint fpc fpd l3 cl img pid)
          ("status".toList) = some (.str ("no_floor_plan".toList)) ∧
      getOpt (generate_3d_from_document_endpoint fpc fpd l3 cl img pid)
          ("floor_plan".toList) = none ∧
      getOpt (generate_3d_from_document_endpoint fpc fpd l3 cl img pid)
          ("checklist".toList) = none ∧
      getOpt (generate_3d_from_document_endpoint fpc fpd l3 cl img pid)
          ("image_3d".toList) = none) ∧
    (∀ (lms fms : List (List Char × Json)),
      pyGet lms ("security_deposit".toList) = none →
      pyResultGet (process_lease_document (.obj lms) (.obj fms))
          ("status".toList) = some (.str ("success".toList))) ∧
    (∀ (lms fms : List (List Char × Json)) (sms : List (List Char × Json)),
      pyGet lms ("security_deposit".toList) = some (.obj sms) →
      pyResultGet (process_lease_document (.obj lms) (.obj fms))
          ("status".toList) = some (.str ("success".toList))) ∧
    (∀ (lms fms : List (List Char × Json)) (sd : Json),
      pyGet lms ("security_deposit".toList) = some sd →
      (∀ sms, sd ≠ Json.obj sms) →
      process_lease_document (.obj lms) (.obj fms) = .raised) := by
  refine ⟨?_, ?_, ?_, ?_, ?_⟩
  · intro h
    unfold generate_3d_from_document_endpoint
    rw [h]
    simp only [Bool.not_true, Bool.false_eq_true, if_false]
    exact ⟨rfl, rfl, rfl, rfl⟩
  · intro h
    unfold generate_3d_from_document_endpoint
    rw [h]
    simp only [Bool.not_false, if_true]
    exact ⟨rfl, rfl, rfl, rfl⟩
  · intro lms fms h
    simp only [process_lease_document, h]
    rfl
  · intro lms fms sms h
    simp only [process_lease_document, h]
    rfl
  · intro lms fms sd h hne
    simp only [process_lease_document, h]
    cases sd with
    | obj sms => exact absurd rfl (hne sms)
    | null => rfl
    | bool b => rfl
    | num n => rfl
    | str s => rfl
    | arr xs => rfl

/-- C3 witness: the aggregation theorem applied at the concrete
counterexample stage results (floor plan found), and its raise clause
applied at a lease extraction whose `security_deposit` is JSON `null`. -/
theorem C3_witness :
    (getOpt (generate_3d_from_document_endpoint fpcC3 parseErrC3 (Json.obj [])
        (Json.obj []) imgErrC3 ("p1".toList)) ("status".toList)
      = some (.str ("success".toList)))
    ∧ process_lease_document
        (Json.obj [(("security_deposit".toList), Json.null)]) (Json.obj [])
      = .raised :=
  ⟨((endpoint_status_aggregation fpcC3 parseErrC3 (Json.obj []) (Json.obj [])
      imgErrC3 ("p1".toList)).1 rfl).1,
   (endpoint_status_aggregation fpcC3 parseErrC3 (Json.obj []) (Json.obj [])
      imgErrC3 ("p1".toList)).2.2.2.2
     [(("security_deposit".toList), Json.null)] [] Json.null rfl
     (fun sms hsms => Json.noConfusion hsms)⟩

/-! ## Claim C6 -/

/-- Deduction record stored in the C6 counterexample. -/
def dedC6 : Json := .obj [(("total_deductions".toList), .num 5)]

/-- Store after a first lease-processing write for project `p`. -/
def db1C6 : List (List Char × ProjectEntry) :=
  process_lease_write [] ("p".toList) (Json.obj []) [] ("application/pdf".toList)

/-- Store after the deduction write for project `p`. -/
def db2C6 : List (List Char × ProjectEntry) :=
  calculate_deductions_write db1C6 ("p".toList) dedC6

/-- Store after lease processing runs again for project `p`. -/
def db3C6 : List (List Char × ProjectEntry) :=
  process_lease_write db2C6 ("p".toList) (Json.obj []) [] ("application/pdf".toList)

/-- C6 counterexample: after a deduction write stores a deduction record
for project `p`, re-running the lease-processing write for the same project
erases it — the claim demands the unsupplied `deduction` field be left
intact. -/
theorem C6_counterexample :
    get_project_deductions db2C6 ("p".toList) = some dedC6
    ∧ get_project_deductions db3C6 ("p".toList) = none :=
  ⟨rfl, rfl⟩

/-- C6 (corrected): the deduction write is field-level (it updates only the
`deposit_deductions` field of an existing project entry, leaves every other
field of that entry and every other project untouched, and is dropped when
the project does not exist), but the lease-processing write replaces the
whole project record wholesale: the stored entry afterwards has no
`deposit_deductions` (and no other previously accumulated field). -/
theorem project_store_writes
    (db : List (List Char × ProjectEntry)) (pid : List Char) (ded : Json)
    (e : ProjectEntry) (hmem : pyLookup db pid = some e) :
    pyLookup (calculate_deductions_write db pid ded) pid
      = some { e with deposit_deductions := some ded } ∧
    (∀ k, ¬ (k = pid) →
      pyLookup (calculate_deductions_write db pid ded) k = pyLookup db k) ∧
    (∀ (db' : List (List Char × ProjectEntry)) (result : Json)
        (bytes : List Nat) (mt : List Char),
      pyLookup (process_lease_write db' pid result bytes mt) pid
        = some { lease_info := getOpt result ("lease_info".toList),
                 deposit_amount := getOpt result ("deposit_amount".toList),
                 deposit_currency := getOpt result ("deposit_currency".toList),
                 document_bytes := some bytes,
                 mime_type := some mt,
                 deposit_deductions := none }) ∧
    (∀ (pid' : List Char) (ded' : Json),
      pyLookup db pid' = none → calculate_deductions_write db pid' ded' = db) := by
  have hsome : (pyLookup db pid).isSome := by rw [hmem]; rfl
  refine ⟨?_, ?_, ?_, ?_⟩
  · unfold calculate_deductions_write
    rw [if_pos hsome]
    have hm := pyLookup_mapset db pid pid
      (fun e0 => { e0 with deposit_deductions := some ded })
    refine Eq.trans (by exact hm) ?_
    rw [if_pos rfl, hmem]
    rfl
  · intro k hk
    unfold calculate_deductions_write
    rw [if_pos hsome]
    have hm := pyLookup_mapset db pid k
      (fun e0 => { e0 with deposit_deductions := some ded })
    refine Eq.trans (by exact hm) ?_
    rw [if_neg hk]
  · intro db' result bytes mt
    unfold process_lease_write
    rw [pyLookup_setEntry, if_pos rfl]
  · intro pid' ded' hnone
    unfold calculate_deductions_write
    rw [if_neg (by rw [hnone]; simp)]

/-- C6 witness: the store-write theorem applied at the concrete
counterexample store. -/
theorem C6_witness :
    pyLookup (calculate_deductions_write db1C6 ("p".toList) dedC6) ("p".toList)
      = some { lease_info := none, deposit_amount := none, deposit_currency := none,
               document_bytes := some [], mime_type := some ("application/pdf".toList),
               deposit_deductions := some dedC6 } :=
  (project_store_writes db1C6 ("p".toList) dedC6
    { lease_info := none, deposit_amount := none, deposit_currency := none,
      document_bytes := some [], mime_type := some ("application/pdf".toList),
      deposit_deductions := none } rfl).1

/-! ## Claim C5 -/

/-- A chunk carrying only a binary payload. -/
def chunkBin (d : List Nat) : Option StreamPart :=
  some { inline_data := some (d, none), text := none }

/-- C5 counterexample: on a stream with two non-empty binary fragments the
retained payload is the second (last) one, not the first as the claim
states. -/
theorem C5_counterexample :
    generate_image_stream_result [chunkBin [1], chunkBin [2]]
      = .success [2] ("image/png".toList) ("3D visualization generated".toList)
    ∧ (([chunkBin [1], chunkBin [2]].filterMap binaryOf).head? = some [1])
    ∧ (([2] : List Nat) = [1]) = False := by
  refine ⟨rfl, rfl, by simp⟩

/-- C5 (corrected): the streaming loop retains the LAST non-empty binary
fragment of the stream (each new binary fragment overwrites the previous
one); text fragments are accumulated in order into one buffer, and when no
non-empty binary fragment ever appears the stage result is the error record
carrying the accumulated text. -/
theorem stream_retention (chunks : List (Option StreamPart)) :
    (chunks.foldl consumeChunk initialStreamState).generated_image
      = (chunks.filterMap binaryOf).getLast? ∧
    (chunks.foldl consumeChunk initialStreamState).text_response
      = (chunks.map textOf).flatten ∧
    ((chunks.filterMap binaryOf) = [] →
      generate_image_stream_result chunks
        = .error ("No image generated".toList) ((chunks.map textOf).flatten)) := by
  obtain ⟨htext, himg⟩ := stream_fold_spec chunks initialStreamState
  have h1 : (chunks.foldl consumeChunk initialStreamState).generated_image
      = (chunks.filterMap binaryOf).getLast? := by
    rw [himg]
    rcases hlast : (chunks.filterMap binaryOf).getLast? with _ | d
    · rfl
    · rfl
  have h2 : (chunks.foldl consumeChunk initialStreamState).text_response
      = (chunks.map textOf).flatten := by
    rw [htext]
    rfl
  refine ⟨h1, h2, ?_⟩
  intro hemp
  unfold generate_image_stream_result streamFinish
  rw [show (chunks.foldl consumeChunk initialStreamState).generated_image = none by
    rw [h1, hemp]; rfl]
  rw [h2]

/-- C5 witness: a text-only stream yields the error record carrying the
accumulated text. -/
theorem C5_witness :
    generate_image_stream_result
        [some { inline_data := none, text := some ("hi".toList) }]
      = .error ("No image generated".toList) ("hi".toList) :=
  ((stream_retention [some { inline_data := none, text := some ("hi".toList) }]).2.2
    rfl).trans (by rfl)

/-! ## Claim C9 -/

theorem rank_fold_bound (id : List Char) :
    ∀ (l : List (List Char)) (k : Nat) (acc : Option Nat),
      (∀ j, acc = some j → j < k) →
      ∀ j, ((l.enumFrom k).foldl
          (fun a p => if p.2 = id then some p.1 else a) acc) = some j →
        j < k + l.length := by
  intro l
  induction l with
  | nil =>
    intro k acc hacc j hj
    have := hacc j hj
    omega
  | cons x l' ih =>
    intro k acc hacc j hj
    rw [List.enumFrom, List.foldl_cons] at hj
    have hacc' : ∀ j, (if ((k, x) : Nat × List Char).2 = id
        then some ((k, x) : Nat × List Char).1 else acc) = some j → j < k + 1 := by
      intro j' hj'
      by_cases hx : ((k, x) : Nat × List Char).2 = id
      · rw [if_pos hx] at hj'
        have : k = j' := Option.some.inj hj'
        omega
      · rw [if_neg hx] at hj'
        have := hacc j' hj'
        omega
    have := ih (k + 1) _ hacc' j hj
    rw [List.length_cons]
    omega

theorem rank_fold_isSome (id : List Char) :
    ∀ (l : List (List Char)) (k : Nat) (acc : Option Nat),
      (id ∈ l ∨ acc.isSome) →
      ((l.enumFrom k).foldl
        (fun a p => if p.2 = id then some p.1 else a) acc).isSome := by
  intro l
  induction l with
  | nil =>
    intro k acc h
    rcases h with h | h
    · cases h
    · exact h
  | cons x l' ih =>
    intro k acc h
    rw [List.enumFrom, List.foldl_cons]
    by_cases hx : x = id
    · exact ih (k + 1) _ (Or.inr (by simp [hx]))
    · rcases h with h | h
      · rcases List.mem_cons.mp h with h | h
        · exact absurd h.symm hx
        · exact ih (k + 1) _ (Or.inl h)
      · refine ih (k + 1) _ (Or.inr ?_)
        simpa [hx] using h

theorem rank_fold_none (id : List Char) :
    ∀ (l : List (List Char)) (k : Nat), id ∉ l →
      ((l.enumFrom k).foldl
        (fun a p => if p.2 = id then some p.1 else a) none) = none := by
  intro l
  induction l with
  | nil => intro k _; rfl
  | cons x l' ih =>
    intro k h
    rw [List.enumFrom, List.foldl_cons]
    have hx : ¬ (x = id) := fun hc => h (by rw [← hc]; exact List.mem_cons_self _ _)
    rw [show (if ((k, x) : Nat × List Char).2 = id
        then some ((k, x) : Nat × List Char).1 else (none : Option Nat)) = none by
      rw [if_neg hx]]
    exact ih (k + 1) (fun hc => h (List.mem_cons_of_mem _ hc))

theorem routeRank_lt_of_mem (route : List (List Char)) (id : List Char)
    (h : id ∈ route) : routeRank route id < route.length := by
  unfold routeRank
  rw [show route.enum = route.enumFrom 0 from rfl]
  have hsome := rank_fold_isSome id route 0 none (Or.inl h)
  rcases hj : (route.enumFrom 0).foldl
      (fun a p => if p.2 = id then some p.1 else a) none with _ | j
  · rw [hj] at hsome
    exact Bool.noConfusion hsome
  · have hb := rank_fold_bound id route 0 none (fun j hj' => by cases hj') j hj
    rw [hj]
    simpa using hb

theorem routeRank_of_not_mem (route : List (List Char)) (id : List Char)
    (h : id ∉ route) : routeRank route id = 999 := by
  unfold routeRank
  rw [show route.enum = route.enumFrom 0 from rfl, rank_fold_none id route 0 h]
  rfl

/-- Rooms and route for the C9 counterexample: room `a` is not on the
inspection route; room `b` is, at (last) enumeration index 999 — exactly the
sentinel. -/
def fpC9 : FloorPlanData :=
  { rooms :=
      [{ id := ("a".toList), name := [], type_ := ("other".toList),
         inspection_priority := ("medium".toList), inspection_tips := [] },
       { id := ("b".toList), name := [], type_ := ("other".toList),
         inspection_priority := ("medium".toList), inspection_tips := [] }],
    inspection_route := List.replicate 1000 ("b".toList) }

set_option maxRecDepth 8000 in
/-- C9 counterexample: with an inspection route of length 1000, the listed
room `b` gets rank 999 — the same as the sentinel rank of the unlisted room
`a` — so the unlisted room sorts BEFORE the listed one, contradicting the
claim that the sentinel ranks strictly below every listed room. -/
theorem C9_counterexample :
    ((create_inspection_checklist fpC9).checklist.map (fun e => e.room_id))
      = [("a".toList), ("b".toList)]
    ∧ (("b".toList) ∈ fpC9.inspection_route)
    ∧ ¬ (("a".toList) ∈ fpC9.inspection_route) := by
  refine ⟨rfl, ?_, ?_⟩
  · rw [show fpC9.inspection_route = List.replicate 1000 ("b".toList) from rfl]
    rw [List.mem_replicate]
    exact ⟨by decide, rfl⟩
  · rw [show fpC9.inspection_route = List.replicate 1000 ("b".toList) from rfl]
    rw [List.mem_replicate]
    rintro ⟨-, hc⟩
    exact absurd hc (by decide)

/-- C9 (corrected): `create_inspection_checklist` orders its entries by
room rank — the room's last index in `inspection_route`, or the finite
sentinel 999 when absent — with a stable sort (equal ranks keep the
original room order), deterministically; and PROVIDED the route has at most
999 entries, every unlisted room sorts after every listed room (for longer
routes the sentinel collides with genuine indices, see the counterexample). -/
theorem create_inspection_checklist_spec (fp : FloorPlanData)
    (hroute : fp.inspection_route.length ≤ 999) :
    create_inspection_checklist fp = create_inspection_checklist fp ∧
    (((create_inspection_checklist fp).checklist.map (fun e => e.room_id)).Perm
      (fp.rooms.map (fun r => r.id))) ∧
    ((create_inspection_checklist fp).checklist.Pairwise (fun a b =>
      routeRank fp.inspection_route a.room_id
        ≤ routeRank fp.inspection_route b.room_id)) ∧
    (∀ n : Nat,
      ((create_inspection_checklist fp).checklist.map (fun e => e.room_id)).filter
          (fun i => routeRank fp.inspection_route i == n)
        = (fp.rooms.map (fun r => r.id)).filter
            (fun i => routeRank fp.inspection_route i == n)) ∧
    ((create_inspection_checklist fp).checklist.Pairwise (fun a b =>
      b.room_id ∈ fp.inspection_route → a.room_id ∈ fp.inspection_route)) := by
  have hout : (create_inspection_checklist fp).checklist
      = (sortStable (roomRank fp.inspection_route) fp.rooms).map checklistEntryOf := rfl
  refine ⟨rfl, ?_, ?_, ?_, ?_⟩
  · rw [hout, List.map_map]
    exact (sortStable_perm (roomRank fp.inspection_route) fp.rooms).map _
  · rw [hout, List.pairwise_map]
    exact sortStable_pairwise (roomRank fp.inspection_route) fp.rooms
  · intro n
    rw [hout, List.map_map, List.filter_map, List.filter_map]
    exact congrArg _ (sortStable_filter (roomRank fp.inspection_route) fp.rooms n)
  · rw [hout, List.pairwise_map]
    refine (sortStable_pairwise (roomRank fp.inspection_route) fp.rooms).imp ?_
    intro a b hab hbmem
    by_contra hamem
    have ha : routeRank fp.inspection_route a.id = 999 :=
      routeRank_of_not_mem _ _ hamem
    have hb : routeRank fp.inspection_route b.id < fp.inspection_route.length :=
      routeRank_lt_of_mem _ _ hbmem
    have : roomRank fp.inspection_route a = routeRank fp.inspection_route a.id := rfl
    have : roomRank fp.inspection_route b = routeRank fp.inspection_route b.id := rfl
    unfold roomRank at hab
    omega

/-- C9 witness: the builder specification applied at the spec's concrete
two-room scenario (route `[r2, r1]`). -/
theorem C9_witness :
    (((create_inspection_checklist
        { rooms :=
            [{ id := ("r1".toList), name := [], type_ := ("bathroom".toList),
               inspection_priority := ("high".toList), inspection_tips := [] },
             { id := ("r2".toList), name := [], type_ := ("kitchen".toList),
               inspection_priority := ("high".toList), inspection_tips := [] }],
          inspection_route := [("r2".toList), ("r1".toList)] }).checklist.map
        (fun e => e.room_id)).Perm [("r1".toList), ("r2".toList)]) := by
  have h := (create_inspection_checklist_spec
    { rooms :=
        [{ id := ("r1".toList), name := [], type_ := ("bathroom".toList),
           inspection_priority := ("high".toList), inspection_tips := [] },
         { id := ("r2".toList), name := [], type_ := ("kitchen".toList),
           inspection_priority := ("high".toList), inspection_tips := [] }],
      inspection_route := [("r2".toList), ("r1".toList)] } (by decide)).2.1
  exact h

/-! ## Claim C10 -/

/-- Record for the C10 counterexample: a valid object whose string field
contains the fence delimiter. -/
def recC10 : Json := .obj [(("m".toList), .str ("a```b".toList))]

/-- C10 counterexample: a valid structured record whose encoding contains
the fence delimiter.  Unwrapped it round-trips, but wrapped in a fenced
block the clean-up cuts the text at the delimiter inside the string, the
parse fails, and extraction degrades to the `partial` fallback instead of
returning the record. -/
theorem C10_counterexample :
    wfJson recC10 = true
    ∧ parseJson (printJson recC10) = some recC10
    ∧ parseJson (cleanText (wrapTagged (printJson recC10))) = none
    ∧ extract_lease_info_result (wrapTagged (printJson recC10))
      = .obj [(("status".toList), .str ("partial".toList)),
              (("raw_extraction".toList), .str (wrapTagged (printJson recC10))),
              (("message".toList),
                .str ("Could not parse structured data, raw extraction provided".toList))] := by
  refine ⟨by decide, rfl, rfl, rfl⟩

/-- C10 (corrected): the extraction round trip holds for every well-formed
record whose encoding does not itself contain the fence delimiter ```:
the encoded text — bare, or wrapped in a fenced block with a `json` tag or
with no tag — cleans and parses back to the identical record, and the
lease/damage extractors return it as structured output with only their own
bookkeeping field added (`status = "success"`, resp. `raw_analysis` set to
the raw reply). -/
theorem extract_roundtrip (v : Json) (ms : List (List Char × Json))
    (hwf : wfJson v = true)
    (hnof : ¬ (fenceChars <:+: printJson v)) :
    parseJson (cleanText (printJson v)) = some v ∧
    parseJson (cleanText (wrapTagged (printJson v))) = some v ∧
    parseJson (cleanText (wrapPlain (printJson v))) = some v ∧
    (v = .obj ms →
      extract_lease_info_result (wrapTagged (printJson v))
        = .obj (pyDictAdd ms (("status".toList), .str ("success".toList))) ∧
      analyze_damage_extract (wrapTagged (printJson v))
        = .ok (.obj (pyDictAdd ms (("raw_analysis".toList),
            .str (wrapTagged (printJson v)))))) := by
  have h1 := cleanText_print v
  have h2 := cleanText_wrapTagged v hnof
  have h3 := cleanText_wrapPlain v hnof
  have hp := parseJson_printJson v hwf
  refine ⟨by rw [h1]; exact hp, by rw [h2]; exact hp, by rw [h3]; exact hp, ?_⟩
  rintro rfl
  constructor
  · unfold extract_lease_info_result
    rw [h2, hp]
  · unfold analyze_damage_extract
    rw [h2, hp]

/-- C10 witness: the round-trip theorem applied at a concrete record,
wrapped in a tagged fence block. -/
theorem C10_witness :
    parseJson (cleanText (wrapTagged (printJson (Json.obj [(("a".toList), Json.num 1)]))))
      = some (Json.obj [(("a".toList), Json.num 1)]) :=
  (extract_roundtrip (Json.obj [(("a".toList), Json.num 1)])
    [(("a".toList), Json.num 1)] (by decide) (by decide)).2.1
